import Mathlib

/-!
Shallow embedding of the Are.na incremental export / enrichment pipeline
(`src/skills/arena-cli/scripts/export-blocks.ts` and
`src/skills/arena-cli/scripts/enrich-blocks.ts`) together with theorems
settling the specification claims about it.

Conventions of the embedding:
* JS numbers that hold ids, counters and timestamps are modelled as `Nat`
  (ids are positive integers issued by the remote API; timestamps such as
  `exported_at` / `last_updated` are opaque "now" values threaded in).
* `x?.y || null` on string-valued fields is modelled with `Option String`
  and `Option.orElse` / `Option.bind`.
* The block directory (one JSON file per block id) is modelled as a list of
  `ExportedBlock` keyed by `id`; `loadBlock` is the point lookup and
  `saveBlock` the overwrite-or-create of the file for that id.
* Network effects are modelled by oracles passed in as functions:
  `remote : Nat → Except Nat (List ArenaBlock)` gives, per page number,
  either the raw `contents` array of the page or the HTTP status of a
  failing (non-2xx, non-429) response, which `arenaFetch` turns into a
  thrown error; `images : String → Nat → Option String` is the result of
  `downloadImage` (a local filename, or `null` on failure).
* The TS code throws exceptions out of `exportChannel`; the embedding makes
  the control flow explicit with `LoopExit` (`ended` = the `while` loop was
  left by a `break`, `errored s` = a fetch threw and the tail of
  `exportChannel` after the loop never ran, `fuelOut` = the loop had not
  terminated after `fuel` iterations — a model artifact standing for a
  still-running loop).
-/

/-- The `cls` field embeds the TS `class` field (a reserved word in Lean). -/
structure ArenaImage where
  original : Option String
  display : Option String
deriving DecidableEq, Repr

/-- One element of the `contents` array returned by the remote API
(interface `ArenaBlock` in `export-blocks.ts`); url-bearing sub-objects are
flattened to the single url the exporter reads from them. -/
structure ArenaBlock where
  id : Nat
  title : Option String
  updated_at : Nat
  created_at : Nat
  cls : String
  content : Option String
  description : Option String
  source : Option String
  image : Option ArenaImage
  attachment : Option String
  embed : Option String
deriving DecidableEq, Repr

/-- The enrichment payload written by `enrich-blocks.ts`
(interface `VisionEnrichment`). -/
structure VisionEnrichment where
  suggested_title : String
  description : String
  tags : List String
  ui_patterns : List String
  enriched_at : Nat
  model : String
deriving DecidableEq, Repr

/-- One persisted block file (interface `ExportedBlock`). The on-disk JSON
may carry a `vision` sub-object written by the enrichment script
(`enrich-blocks.ts` declares it as an optional field of the same record);
the embedding therefore carries `vision : Option VisionEnrichment` on the
one shared record type. Note that `convertBlock` in `export-blocks.ts`
builds its object literal without a `vision` key, which the embedding
renders as `vision := none`. -/
structure ExportedBlock where
  id : Nat
  title : Option String
  cls : String
  created_at : Nat
  updated_at : Nat
  content : Option String
  description : Option String
  source_url : Option String
  image_url : Option String
  image_local : Option String
  attachment_url : Option String
  embed_url : Option String
  channels : List String
  exported_at : Nat
  vision : Option VisionEnrichment
deriving DecidableEq, Repr

/-- Per-channel sync state (interface `ChannelState`). -/
structure ChannelState where
  slug : String
  title : String
  newest_id : Option Nat
  oldest_id : Option Nat
  total_exported : Nat
  last_updated : Nat
  fully_backfilled : Bool
deriving DecidableEq, Repr

/-- The channel map of the global state document (interface `ExportState`,
restricted to the `channels` record, the only part the sync pass reads or
writes per collection). -/
structure ExportState where
  channels : List (String × ChannelState)
deriving DecidableEq, Repr

/-- A channel as returned by the collections listing
(interface `ArenaChannel`, restricted to the fields `exportChannel` reads). -/
structure ArenaChannel where
  id : Nat
  title : String
  slug : String
  length : Nat
deriving DecidableEq, Repr

/-- The blocks directory: one entry per id. -/
abbrev BlockStore : Type := List ExportedBlock

/-- Function `loadBlock`: read `blocks/<id>.json` if it exists. -/
def loadBlock (store : BlockStore) (blockId : Nat) : Option ExportedBlock :=
  List.find? (fun b => b.id == blockId) store

/-- Function `saveBlock`: overwrite the file for `b.id`, or create it. -/
def saveBlock (store : BlockStore) (b : ExportedBlock) : BlockStore :=
  if List.any store (fun x => x.id == b.id) then
    List.map (fun x => if x.id == b.id then b else x) store
  else store ++ [b]

def lookupChannel (state : ExportState) (slug : String) : Option ChannelState :=
  (state.channels.find? (fun p => p.1 == slug)).map (fun p => p.2)

/-- Embeds `state.channels[channel.slug] = channelState`. -/
def setChannel (state : ExportState) (slug : String) (cs : ChannelState) : ExportState :=
  if state.channels.any (fun p => p.1 == slug) then
    ⟨state.channels.map (fun p => if p.1 == slug then (slug, cs) else p)⟩
  else ⟨state.channels ++ [(slug, cs)]⟩

def PER_PAGE : Nat := 100

-- ===========================================================================
-- arenaFetch (export-blocks.ts lines 166-187)
-- ===========================================================================

/-- One HTTP response as seen by `arenaFetch`: the status, the parsed
`retry-after` header if present (the code defaults a missing header to 60),
and the JSON body. -/
structure ArenaResponse (β : Type) where
  status : Nat
  retryAfterHeader : Option Nat
  body : β
deriving DecidableEq, Repr

/-- Embeds `res.ok` of the fetch API: status in 200..299. -/
def respOk {β : Type} (r : ArenaResponse β) : Bool :=
  decide (200 ≤ r.status) && decide (r.status < 300)

/-- Function `arenaFetch`, run against the sequence of responses the server returns
to the successive (identical) requests of its retry recursion. Returns the
list of sleeps performed (in milliseconds, one per 429 response, each
`retryAfter * 1000`) and the outcome: `some (Except.ok body)` when a 2xx
response is reached, `some (Except.error status)` when a non-2xx non-429
response makes the function throw (the thrown `Error` message carries
`res.status`), and `none` if the response list is exhausted while still
retrying (the unbounded-retry case). -/
def arenaFetch {β : Type} : List (ArenaResponse β) → List Nat × Option (Except Nat β)
  | [] => ([], none)
  | r :: rest =>
    if r.status == 429 then
      let retryAfter := r.retryAfterHeader.getD 60
      let next := arenaFetch rest
      (retryAfter * 1000 :: next.1, next.2)
    else if respOk r then ([], some (Except.ok r.body))
    else ([], some (Except.error r.status))

-- ===========================================================================
-- fetchChannelBlocks (export-blocks.ts lines 211-223)
-- ===========================================================================

/-- Function `fetchChannelBlocks`: fetch one page of a channel (the `remote` oracle
stands for `arenaFetch` on `/channels/<slug>/contents?per=100&page=<page>`;
an `Except.error s` is the RemoteError thrown by `arenaFetch`), drop
channel-class items, and report `hasMore` iff the filtered batch is exactly
full. -/
def fetchChannelBlocks (remote : Nat → Except Nat (List ArenaBlock)) (page : Nat) :
    Except Nat (List ArenaBlock × Bool) :=
  match remote page with
  | Except.error s => Except.error s
  | Except.ok contents =>
    let blocks := contents.filter (fun b => b.cls != "Channel")
    Except.ok (blocks, blocks.length == PER_PAGE)

-- ===========================================================================
-- convertBlock (export-blocks.ts lines 255-278)
-- ===========================================================================

/-- Embeds `block.image?.original?.url || block.image?.display?.url || null`. -/
def imageUrlOf (block : ArenaBlock) : Option String :=
  match block.image with
  | none => none
  | some img => img.original.orElse (fun _ => img.display)

/-- Function `convertBlock`: rebuild the exported record for `block` from the fetched
item, keeping the existing file's membership list (extended with
`channelSlug` if absent) and its `image_local`. The object literal in the
source has no `vision` key, so the produced record has `vision := none`
even when the existing file carried an enrichment. -/
def convertBlock (store : BlockStore) (block : ArenaBlock) (channelSlug : String)
    (now : Nat) : ExportedBlock :=
  let existing := loadBlock store block.id
  let channels0 := match existing with
    | some ex => ex.channels
    | none => []
  let channels := if channels0.contains channelSlug then channels0
    else channels0 ++ [channelSlug]
  { id := block.id
    title := block.title
    cls := block.cls
    created_at := block.created_at
    updated_at := block.updated_at
    content := block.content
    description := block.description
    source_url := block.source
    image_url := imageUrlOf block
    image_local := existing.bind (fun ex => ex.image_local)
    attachment_url := block.attachment
    embed_url := block.embed
    channels := channels
    exported_at := now
    vision := none }

-- ===========================================================================
-- exportChannel (export-blocks.ts lines 280-386)
-- ===========================================================================

structure SyncOptions where
  backfill : Bool
  downloadImages : Bool
deriving DecidableEq, Repr

/-- The run-local accumulator of one `exportChannel` invocation: the block
store as mutated so far, the run-local watermark trackers and the two
counters. -/
structure RunAcc where
  store : BlockStore
  runNewestId : Option Nat
  runOldestId : Option Nat
  newBlocks : Nat
  updatedBlocks : Nat

/-- Embeds `if (runNewestId === null || block.id > runNewestId) runNewestId = block.id`. -/
def trackNewest (cur : Option Nat) (blockId : Nat) : Option Nat :=
  match cur with
  | none => some blockId
  | some n => if blockId > n then some blockId else some n

/-- Embeds `if (runOldestId === null || block.id < runOldestId) runOldestId = block.id`. -/
def trackOldest (cur : Option Nat) (blockId : Nat) : Option Nat :=
  match cur with
  | none => some blockId
  | some n => if blockId < n then some blockId else some n

/-- The body of `for (const block of blocks)` (export-blocks.ts lines
317-346): track watermarks, then either skip (block exists and already
carries this channel), save with membership extended (block exists in a new
channel), or save as a new block, optionally downloading its image first. -/
def processBlock (images : String → Nat → Option String) (opts : SyncOptions)
    (slug : String) (now : Nat) (acc : RunAcc) (block : ArenaBlock) : RunAcc :=
  let rN := trackNewest acc.runNewestId block.id
  let rO := trackOldest acc.runOldestId block.id
  let existing := loadBlock acc.store block.id
  let exported := convertBlock acc.store block slug now
  match existing with
  | some ex =>
    if ex.channels.contains slug then
      { acc with runNewestId := rN, runOldestId := rO }
    else
      { store := saveBlock acc.store exported
        runNewestId := rN
        runOldestId := rO
        newBlocks := acc.newBlocks
        updatedBlocks := acc.updatedBlocks + 1 }
  | none =>
    let exported2 :=
      if opts.downloadImages then
        match exported.image_url with
        | some u => { exported with image_local := images u block.id }
        | none => exported
      else exported
    { store := saveBlock acc.store exported2
      runNewestId := rN
      runOldestId := rO
      newBlocks := acc.newBlocks + 1
      updatedBlocks := acc.updatedBlocks }

/-- How `exportChannel` returned: `ended` = the paging `while` loop was left
through one of its `break`s and the watermark commit below it ran;
`errored s` = `fetchChannelBlocks` threw a RemoteError with status `s`,
which propagated out of `exportChannel` before the commit; `fuelOut` =
model artifact for a loop still running after `fuel` pages. -/
inductive LoopExit where
  | ended : LoopExit
  | errored : Nat → LoopExit
  | fuelOut : LoopExit
deriving DecidableEq, Repr

structure LoopResult where
  acc : RunAcc
  chState : ChannelState
  fetchedPages : List Nat
  processed : List ArenaBlock
  exit : LoopExit

/-- Embeds `options.backfill && channelState.oldest_id !== null &&
blocks.some(b => b.id <= channelState.oldest_id)` (the backfill boundary
test of export-blocks.ts lines 357-363, with the two null checks fused). -/
def boundaryReached (chState : ChannelState) (blocks : List ArenaBlock) : Bool :=
  match chState.oldest_id with
  | some o => blocks.any (fun b => decide (b.id ≤ o))
  | none => false

/-- The `while (true)` paging loop of `exportChannel` (lines 311-367),
made structurally recursive on `fuel` (the number of loop iterations still
allowed; every path of the TS loop that does not `break` or throw runs at
most `fuel` more iterations here). `fetchedPages` accumulates the page
numbers requested from the remote, `processed` the items merged so far. -/
def syncLoop (remote : Nat → Except Nat (List ArenaBlock))
    (images : String → Nat → Option String) (opts : SyncOptions)
    (slug : String) (now : Nat) :
    Nat → Nat → ChannelState → RunAcc → List Nat → List ArenaBlock → LoopResult
  | 0, _page, chState, acc, pages, processed =>
    ⟨acc, chState, pages, processed, LoopExit.fuelOut⟩
  | fuel + 1, page, chState, acc, pages, processed =>
    match fetchChannelBlocks remote page with
    | Except.error s => ⟨acc, chState, pages ++ [page], processed, LoopExit.errored s⟩
    | Except.ok (blocks, hasMore) =>
      if blocks.length == 0 then
        ⟨acc, chState, pages ++ [page], processed, LoopExit.ended⟩
      else
        let acc2 := blocks.foldl (processBlock images opts slug now) acc
        let processed2 := processed ++ blocks
        if !hasMore then
          ⟨acc2, { chState with fully_backfilled := true }, pages ++ [page], processed2,
            LoopExit.ended⟩
        else if opts.backfill && boundaryReached chState blocks then
          ⟨acc2, chState, pages ++ [page], processed2, LoopExit.ended⟩
        else
          syncLoop remote images opts slug now fuel (page + 1) chState acc2
            (pages ++ [page]) processed2

/-- The fresh per-channel state built when `state.channels[channel.slug]`
is absent (export-blocks.ts lines 285-293). -/
def defaultChannelState (channel : ArenaChannel) (now : Nat) : ChannelState :=
  { slug := channel.slug
    title := channel.title
    newest_id := none
    oldest_id := none
    total_exported := 0
    last_updated := now
    fully_backfilled := false }

/-- Embeds `if (channelState.newest_id === null || runNewestId > channelState.newest_id)`. -/
def maxMerge (stored : Option Nat) (run : Option Nat) : Option Nat :=
  match run with
  | none => stored
  | some rn =>
    match stored with
    | none => some rn
    | some n => if rn > n then some rn else stored

/-- Embeds `if (channelState.oldest_id === null || runOldestId < channelState.oldest_id)`. -/
def minMerge (stored : Option Nat) (run : Option Nat) : Option Nat :=
  match run with
  | none => stored
  | some ro =>
    match stored with
    | none => some ro
    | some o => if ro < o then some ro else stored

/-- The watermark commit after the loop (export-blocks.ts lines 369-382). -/
def commitWatermarks (cs : ChannelState) (acc : RunAcc) (now : Nat) : ChannelState :=
  { cs with
    newest_id := maxMerge cs.newest_id acc.runNewestId
    oldest_id := minMerge cs.oldest_id acc.runOldestId
    total_exported := cs.total_exported + acc.newBlocks
    last_updated := now }

/-- Everything observable about one `exportChannel` call: the block store
and state document afterwards, the returned counters, the run-local
watermark trackers at the end of the loop, which pages were requested,
which items were merged, and how the call ended. -/
structure ExportResult where
  store : BlockStore
  state : ExportState
  newBlocks : Nat
  updatedBlocks : Nat
  runNewestId : Option Nat
  runOldestId : Option Nat
  fetchedPages : List Nat
  processed : List ArenaBlock
  exit : LoopExit

/-- Function `exportChannel`: one sync pass over one channel. On the `errored` path
the TS exception propagates before the watermark commit, so `state` is
returned untouched (the only in-loop mutation of `channelState`, setting
`fully_backfilled`, is immediately followed by a `break` and hence never
precedes a later throw); the block-store writes already performed remain. -/
def exportChannel (remote : Nat → Except Nat (List ArenaBlock))
    (images : String → Nat → Option String) (channel : ArenaChannel)
    (store : BlockStore) (state : ExportState) (opts : SyncOptions)
    (now : Nat) (fuel : Nat) : ExportResult :=
  let channelState := (lookupChannel state channel.slug).getD (defaultChannelState channel now)
  if opts.backfill && channelState.fully_backfilled then
    { store := store, state := state, newBlocks := 0, updatedBlocks := 0,
      runNewestId := none, runOldestId := none, fetchedPages := [], processed := [],
      exit := LoopExit.ended }
  else
    let r := syncLoop remote images opts channel.slug now fuel 1 channelState
      { store := store, runNewestId := none, runOldestId := none,
        newBlocks := 0, updatedBlocks := 0 } [] []
    match r.exit with
    | LoopExit.ended =>
      let cs := commitWatermarks r.chState r.acc now
      { store := r.acc.store, state := setChannel state channel.slug cs,
        newBlocks := r.acc.newBlocks, updatedBlocks := r.acc.updatedBlocks,
        runNewestId := r.acc.runNewestId, runOldestId := r.acc.runOldestId,
        fetchedPages := r.fetchedPages, processed := r.processed, exit := LoopExit.ended }
    | e =>
      { store := r.acc.store, state := state,
        newBlocks := r.acc.newBlocks, updatedBlocks := r.acc.updatedBlocks,
        runNewestId := r.acc.runNewestId, runOldestId := r.acc.runOldestId,
        fetchedPages := r.fetchedPages, processed := r.processed, exit := e }

-- ===========================================================================
-- enrich-blocks.ts
-- ===========================================================================

def GEMINI_MODEL : String := "gemini-3-pro-image-preview"

/-- The JSON object extracted from the vision model's response text
(`parsed` in `analyzeImage`); each field may be missing or of the wrong
shape, which the code papers over with `||`-defaults and `Array.isArray`. -/
structure ParsedPayload where
  suggested_title : Option String
  description : Option String
  tags : Option (List String)
  ui_patterns : Option (List String)
deriving DecidableEq, Repr

/-- The enrichment built on the success path of `analyzeImage`
(enrich-blocks.ts lines 171-178). -/
def successEnrichment (p : ParsedPayload) (now : Nat) : VisionEnrichment :=
  { suggested_title := p.suggested_title.getD "Untitled"
    description := p.description.getD ""
    tags := p.tags.getD []
    ui_patterns := p.ui_patterns.getD []
    enriched_at := now
    model := GEMINI_MODEL }

/-- The minimal enrichment written on the error path of `analyzeImage`
(enrich-blocks.ts lines 179-190): the catch block turns any failure of the
fetch / vision call / JSON extraction into this sentinel payload instead of
re-throwing. -/
def sentinelEnrichment (msg : String) (now : Nat) : VisionEnrichment :=
  { suggested_title := "Analysis Failed"
    description := "Error: " ++ msg
    tags := ["error"]
    ui_patterns := []
    enriched_at := now
    model := GEMINI_MODEL }

/-- Function `analyzeImage` reduced to its result: the external call either
yields a parsed payload or fails with an error message (`oracleResult`);
the function itself never throws. -/
def analyzeImage (oracleResult : Except String ParsedPayload) (now : Nat) :
    VisionEnrichment :=
  match oracleResult with
  | Except.ok p => successEnrichment p now
  | Except.error msg => sentinelEnrichment msg now

/-- One entry of `channels_enriched` (interface `EnrichmentState`). -/
structure ChannelEnrichProgress where
  total : Nat
  enriched : Nat
  last_block_id : Option Nat
deriving DecidableEq, Repr

/-- Interface `EnrichmentState` of `enrich-blocks.ts`. -/
structure EnrichmentState where
  total_enriched : Nat
  last_enriched_at : Option Nat
  channels_enriched : List (String × ChannelEnrichProgress)
deriving DecidableEq, Repr

/-- The per-channel bookkeeping of the enrichment loop (enrich-blocks.ts
lines 360-370): create the entry if missing, bump `enriched`, record the
block id. -/
def bumpChannelProgress (m : List (String × ChannelEnrichProgress)) (ch : String)
    (blockId : Nat) : List (String × ChannelEnrichProgress) :=
  let m1 := if m.any (fun p => p.1 == ch) then m else m ++ [(ch, ⟨0, 0, none⟩)]
  m1.map (fun p => if p.1 == ch then (p.1, ⟨p.2.total, p.2.enriched + 1, some blockId⟩) else p)

/-- Embeds `for (const ch of block.channels)` around `bumpChannelProgress`. -/
def bumpChannels (m : List (String × ChannelEnrichProgress)) (chs : List String)
    (blockId : Nat) : List (String × ChannelEnrichProgress) :=
  chs.foldl (fun m ch => bumpChannelProgress m ch blockId) m

/-- Function `getBlocksForChannel`: ids of all stored blocks whose
membership contains the slug. -/
def getBlocksForChannel (store : BlockStore) (channelSlug : String) : List Nat :=
  (store.filter (fun b => b.channels.contains channelSlug)).map (fun b => b.id)

/-- Function `getAllImageBlocks`: ids of all stored image blocks with a
remote image url. -/
def getAllImageBlocks (store : BlockStore) : List Nat :=
  (store.filter (fun b => b.cls == "Image" && b.image_url.isSome)).map (fun b => b.id)

/-- The eligibility filter of the enrichment main
(`b.class === 'Image' && !!b.image_url`). -/
def eligibleImageBlock (b : ExportedBlock) : Bool :=
  b.cls == "Image" && b.image_url.isSome

/-- The `imageBlocks` list of the enrichment main (enrich-blocks.ts lines
296-309): candidate ids from the channel scan or the global image scan,
loaded and filtered to image blocks with an image url. -/
def imageBlocksOf (store : BlockStore) (target : Option String) : List ExportedBlock :=
  let blockIds := match target with
    | some ch => getBlocksForChannel store ch
    | none => getAllImageBlocks store
  (blockIds.filterMap (loadBlock store)).filter eligibleImageBlock

/-- The `blocksToProcess` list (enrich-blocks.ts lines 313-316): already
enriched blocks are skipped unless `--force` is set. -/
def blocksToProcessOf (store : BlockStore) (target : Option String) (force : Bool) :
    List ExportedBlock :=
  let imageBlocks := imageBlocksOf store target
  if force then imageBlocks else imageBlocks.filter (fun b => b.vision.isNone)

/-- Accumulator of the enrichment loop: the store as mutated so far, the
enrichment part of the state document, and the local `enriched` counter. -/
structure EnrichAcc where
  store : BlockStore
  enrichment : EnrichmentState
  enriched : Nat

/-- One iteration of the enrichment loop on a non-dry run (enrich-blocks.ts
lines 342-374): analyze, set `block.vision`, persist the block, bump the
local and global counters and the per-channel progress, persist state.
`analyzeImage` never throws, so the catch arm of the loop is unreachable
and the loop always continues with the next record. -/
def enrichStep (oracle : Nat → Except String ParsedPayload) (now : Nat)
    (acc : EnrichAcc) (b : ExportedBlock) : EnrichAcc :=
  let vision := analyzeImage (oracle b.id) now
  let b2 := { b with vision := some vision }
  { store := saveBlock acc.store b2
    enrichment :=
      { total_enriched := acc.enrichment.total_enriched + 1
        last_enriched_at := some now
        channels_enriched := bumpChannels acc.enrichment.channels_enriched b2.channels b.id }
    enriched := acc.enriched + 1 }

/-- The enrichment loop over the pre-computed `blocksToProcess` snapshot list
(the loop iterates block objects loaded before any mutation). -/
def enrichLoop (oracle : Nat → Except String ParsedPayload) (now : Nat) :
    List ExportedBlock → EnrichAcc → EnrichAcc
  | [], acc => acc
  | b :: rest, acc => enrichLoop oracle now rest (enrichStep oracle now acc b)

/-- Observable result of one enrichment pass. -/
structure EnrichResult where
  store : BlockStore
  enrichment : EnrichmentState
  enriched : Nat

/-- The enrichment pass of `main` in `enrich-blocks.ts`: select the blocks
to process, then either only report them (`dryRun`) or run the sequential
annotation loop. `oracle` gives, per block id, the outcome of the external
vision call for that block's image. -/
def enrichMain (store : BlockStore) (enr0 : EnrichmentState)
    (oracle : Nat → Except String ParsedPayload) (target : Option String)
    (force dryRun : Bool) (now : Nat) : EnrichResult :=
  let btp := blocksToProcessOf store target force
  if dryRun then ⟨store, enr0, 0⟩
  else
    let acc := enrichLoop oracle now btp ⟨store, enr0, 0⟩
    ⟨acc.store, acc.enrichment, acc.enriched⟩

-- ===========================================================================
-- Derived notions used by the claims
-- ===========================================================================

/-- A record for `blockId` is on disk and its membership contains `slug` —
the post-state of `merge_record` for that id and collection. -/
def slugMember (slug : String) (store : BlockStore) (blockId : Nat) : Prop :=
  ∃ ex, loadBlock store blockId = some ex ∧ ex.channels.contains slug = true

/-- The run-local `runNewestId` tracker as a fold over the ids seen. -/
def foldNewest (init : Option Nat) (bs : List ArenaBlock) : Option Nat :=
  bs.foldl (fun cur b => trackNewest cur b.id) init

/-- The run-local `runOldestId` tracker as a fold over the ids seen. -/
def foldOldest (init : Option Nat) (bs : List ArenaBlock) : Option Nat :=
  bs.foldl (fun cur b => trackOldest cur b.id) init

/-- All inputs of one `exportChannel` invocation other than the two stores. -/
structure SyncRun where
  remote : Nat → Except Nat (List ArenaBlock)
  images : String → Nat → Option String
  channel : ArenaChannel
  opts : SyncOptions
  now : Nat
  fuel : Nat

/-- Run one sync pass, keeping the block store and state document. -/
def applyRun (store : BlockStore) (state : ExportState) (run : SyncRun) :
    BlockStore × ExportState :=
  let r := exportChannel run.remote run.images run.channel store state run.opts
    run.now run.fuel
  (r.store, r.state)

/-- Run a sequence of sync passes (over arbitrary channels, in arbitrary
modes), as the loop over channels in `main` does across invocations. -/
def applyRuns : List SyncRun → BlockStore × ExportState → BlockStore × ExportState
  | [], p => p
  | run :: rest, p => applyRuns rest (applyRun p.1 p.2 run)

/-- The stored watermark pair of a collection (both `none` when the
collection is not yet tracked). -/
def watermarksOf (state : ExportState) (slug : String) : Option Nat × Option Nat :=
  match lookupChannel state slug with
  | some cs => (cs.newest_id, cs.oldest_id)
  | none => (none, none)

/-- Propositional order on `newest_id` values: whenever the first is set,
the second is set and at least as large. -/
def newestLe (a b : Option Nat) : Prop :=
  ∀ n, a = some n → ∃ m, b = some m ∧ n ≤ m

/-- Propositional order on `oldest_id` values: whenever the first is set,
the second is set and at most as large. -/
def oldestGe (a b : Option Nat) : Prop :=
  ∀ n, a = some n → ∃ m, b = some m ∧ m ≤ n

/-- The watermark-pair invariant: `newest_id ≥ oldest_id` whenever both are
set. -/
def wmPairInv (p : Option Nat × Option Nat) : Prop :=
  ∀ a b, p.1 = some a → p.2 = some b → b ≤ a

/-- Well-formedness of the run-local tracker pair: both are set or neither,
and the minimum tracker never exceeds the maximum tracker. -/
def trackersWF (rN rO : Option Nat) : Prop :=
  (rN = none ↔ rO = none) ∧ ∀ a b, rN = some a → rO = some b → b ≤ a

/-- The candidate pre-filter of the enrichment main: which stored blocks
are scanned before the image-eligibility filter (the channel scan of
`getBlocksForChannel` for a target channel, the global image scan of
`getAllImageBlocks` otherwise). -/
def candidateFilter (target : Option String) (b : ExportedBlock) : Bool :=
  match target with
  | some ch => b.channels.contains ch
  | none => b.cls == "Image" && b.image_url.isSome

-- ===========================================================================
-- Concrete inputs used by counterexamples and witnesses
-- ===========================================================================

/-- A concrete enrichment payload. -/
def c1Vision : VisionEnrichment :=
  ⟨"Dark Mode Dashboard", "a dashboard", ["dashboard"], ["metric-cards"], 50, GEMINI_MODEL⟩

/-- A stored record that was synced via collection "a" and then enriched. -/
def c1Existing : ExportedBlock :=
  { id := 7, title := some "t", cls := "Image", created_at := 1, updated_at := 2,
    content := none, description := none, source_url := none,
    image_url := some "u", image_local := some "7.jpg", attachment_url := none,
    embed_url := none, channels := ["a"], exported_at := 10, vision := some c1Vision }

/-- The same remote item, as served when syncing collection "b". -/
def c1Block : ArenaBlock :=
  { id := 7, title := some "t", updated_at := 2, created_at := 1, cls := "Image",
    content := none, description := none, source := none,
    image := some ⟨some "u", none⟩, attachment := none, embed := none }

/-- A remote collection "b" containing exactly the item with id 7. -/
def c1Remote : Nat → Except Nat (List ArenaBlock) :=
  fun page => if page == 1 then Except.ok [c1Block] else Except.ok []

def c1Channel : ArenaChannel := ⟨2, "B", "b", 1⟩

/-- A remote collection whose first page is empty. -/
def c5Remote : Nat → Except Nat (List ArenaBlock) := fun _ => Except.ok []

def c5Channel : ArenaChannel := ⟨1, "Demo", "demo", 5⟩

/-- A minimal remote item with a given id. -/
def c2Block (i : Nat) : ArenaBlock :=
  { id := i, title := none, updated_at := 0, created_at := 0, cls := "Image",
    content := none, description := none, source := none, image := none,
    attachment := none, embed := none }

/-- A full first page: 100 items with ids 1000..1099. -/
def c2Page1 : List ArenaBlock := (List.range PER_PAGE).map (fun i => c2Block (1000 + i))

/-- A remote that serves a full first page and fails with a 500 on page 2. -/
def c2Remote : Nat → Except Nat (List ArenaBlock) :=
  fun page => if page == 1 then Except.ok c2Page1 else Except.error 500

def c2Channel : ArenaChannel := ⟨1, "Demo", "demo", 250⟩

/-- Prior state: collection "demo" with both watermarks at 5. -/
def c2State : ExportState :=
  ⟨[("demo", ⟨"demo", "Demo", some 5, some 5, 1, 0, false⟩)]⟩

/-- A minimal eligible image record belonging to collection "demo". -/
def c9Block (i : Nat) (v : Option VisionEnrichment) : ExportedBlock :=
  { id := i, title := none, cls := "Image", created_at := 0, updated_at := 0,
    content := none, description := none, source_url := none, image_url := some "u",
    image_local := none, attachment_url := none, embed_url := none, channels := ["demo"],
    exported_at := 0, vision := v }

/-- Two not-yet-enriched image records. -/
def c9Store : BlockStore := [c9Block 1 none, c9Block 2 none]

/-- An annotation oracle that fails on record 1 and succeeds on the rest. -/
def c9Oracle : Nat → Except String ParsedPayload :=
  fun i => if i == 1 then Except.error "boom"
    else Except.ok ⟨some "Trading Dashboard", some "d", some ["table"], some ["pills"]⟩

def c9Enr0 : EnrichmentState := ⟨0, none, []⟩

-- ===========================================================================
-- Helper lemmas about the store and state maps
-- ===========================================================================

lemma find?_replace_ne (xs : BlockStore) (b : ExportedBlock) (i : Nat) (h : i ≠ b.id) :
    List.find? (fun x => x.id == i) (xs.map (fun x => if x.id == b.id then b else x)) =
      List.find? (fun x => x.id == i) xs := by
  induction xs with
  | nil => rfl
  | cons x xs ih =>
    rw [List.map_cons]
    by_cases hx : x.id = b.id
    · rw [if_pos (by simp [hx])]
      rw [List.find?_cons_of_neg _ (by simp; exact fun hh => h hh.symm),
          List.find?_cons_of_neg _ (by simp [hx]; exact fun hh => h hh.symm)]
      exact ih
    · rw [if_neg (by simp [hx])]
      by_cases hxi : x.id = i
      · rw [List.find?_cons_of_pos _ (by simp [hxi]),
            List.find?_cons_of_pos _ (by simp [hxi])]
      · rw [List.find?_cons_of_neg _ (by simp [hxi]),
            List.find?_cons_of_neg _ (by simp [hxi])]
        exact ih

lemma find?_replace_self (xs : BlockStore) (b : ExportedBlock)
    (h : xs.any (fun x => x.id == b.id) = true) :
    List.find? (fun x => x.id == b.id) (xs.map (fun x => if x.id == b.id then b else x)) =
      some b := by
  induction xs with
  | nil => simp at h
  | cons x xs ih =>
    rw [List.map_cons]
    by_cases hx : x.id = b.id
    · rw [if_pos (by simp [hx])]
      exact List.find?_cons_of_pos _ (by simp)
    · rw [if_neg (by simp [hx])]
      rw [List.find?_cons_of_neg _ (by simp [hx])]
      exact ih (by simpa [List.any_cons, hx] using h)

/-- The point-lookup law of `saveBlock`: reading back after writing `b`
gives `b` at its own id and leaves every other id unchanged. -/
lemma loadBlock_saveBlock (store : BlockStore) (b : ExportedBlock) (i : Nat) :
    loadBlock (saveBlock store b) i = if i = b.id then some b else loadBlock store i := by
  unfold loadBlock saveBlock
  by_cases hany : store.any (fun x => x.id == b.id) = true
  · rw [if_pos hany]
    by_cases hi : i = b.id
    · subst hi
      rw [if_pos rfl]
      exact find?_replace_self store b hany
    · rw [if_neg hi]
      exact find?_replace_ne store b i hi
  · rw [if_neg hany]
    have hnone : List.find? (fun x => x.id == b.id) store = none := by
      rw [List.find?_eq_none]
      intro x hx hbeq
      exact hany (List.any_eq_true.mpr ⟨x, hx, hbeq⟩)
    by_cases hi : i = b.id
    · subst hi
      rw [if_pos rfl, List.find?_append, hnone]
      simp
    · rw [if_neg hi, List.find?_append]
      cases hfind : List.find? (fun x => x.id == i) store with
      | some v => simp
      | none => simp [Option.orElse]; exact fun hh => absurd hh.symm hi

/-- Writing a block whose id is already present does not change the id
sequence of the store. -/
lemma saveBlock_ids (store : BlockStore) (b : ExportedBlock)
    (h : store.any (fun x => x.id == b.id) = true) :
    (saveBlock store b).map (fun x => x.id) = store.map (fun x => x.id) := by
  unfold saveBlock
  rw [if_pos h, List.map_map]
  apply List.map_congr_left
  intro x _
  by_cases hx : x.id = b.id
  · simp [hx]
  · simp [hx]

lemma find?_chanReplace_self (ps : List (String × ChannelState)) (slug : String)
    (cs : ChannelState) (h : ps.any (fun p => p.1 == slug) = true) :
    List.find? (fun p => p.1 == slug)
        (ps.map (fun p => if p.1 == slug then (slug, cs) else p)) = some (slug, cs) := by
  induction ps with
  | nil => simp at h
  | cons p ps ih =>
    rw [List.map_cons]
    by_cases hp : p.1 = slug
    · rw [if_pos (by simp [hp])]
      exact List.find?_cons_of_pos _ (by simp)
    · rw [if_neg (by simp [hp])]
      rw [List.find?_cons_of_neg _ (by simp [hp])]
      exact ih (by simpa [List.any_cons, hp] using h)

lemma find?_chanReplace_ne (ps : List (String × ChannelState)) (slug slug2 : String)
    (cs : ChannelState) (h : slug2 ≠ slug) :
    List.find? (fun p => p.1 == slug2)
        (ps.map (fun p => if p.1 == slug then (slug, cs) else p)) =
      List.find? (fun p => p.1 == slug2) ps := by
  induction ps with
  | nil => rfl
  | cons p ps ih =>
    rw [List.map_cons]
    by_cases hp : p.1 = slug
    · rw [if_pos (by simp [hp])]
      rw [List.find?_cons_of_neg _ (by simp; exact fun hh => h hh.symm),
          List.find?_cons_of_neg _ (by simp [hp]; exact fun hh => h hh.symm)]
      exact ih
    · rw [if_neg (by simp [hp])]
      by_cases hp2 : p.1 = slug2
      · rw [List.find?_cons_of_pos _ (by simp [hp2]),
            List.find?_cons_of_pos _ (by simp [hp2])]
      · rw [List.find?_cons_of_neg _ (by simp [hp2]),
            List.find?_cons_of_neg _ (by simp [hp2])]
        exact ih

lemma lookupChannel_setChannel (state : ExportState) (slug : String) (cs : ChannelState) :
    lookupChannel (setChannel state slug cs) slug = some cs := by
  unfold lookupChannel setChannel
  by_cases h : state.channels.any (fun p => p.1 == slug) = true
  · rw [if_pos h]
    show (List.find? _ (state.channels.map _)).map _ = _
    rw [find?_chanReplace_self state.channels slug cs h]
    rfl
  · rw [if_neg h]
    have hnone : List.find? (fun p => p.1 == slug) state.channels = none := by
      rw [List.find?_eq_none]
      intro p hp hbeq
      exact h (List.any_eq_true.mpr ⟨p, hp, hbeq⟩)
    show (List.find? _ (state.channels ++ [(slug, cs)])).map _ = _
    rw [List.find?_append, hnone]
    simp

lemma lookupChannel_setChannel_ne (state : ExportState) (slug slug2 : String)
    (cs : ChannelState) (h : slug2 ≠ slug) :
    lookupChannel (setChannel state slug cs) slug2 = lookupChannel state slug2 := by
  unfold lookupChannel setChannel
  by_cases hany : state.channels.any (fun p => p.1 == slug) = true
  · rw [if_pos hany]
    show (List.find? _ (state.channels.map _)).map _ = _
    rw [find?_chanReplace_ne state.channels slug slug2 cs h]
  · rw [if_neg hany]
    show (List.find? _ (state.channels ++ [(slug, cs)])).map _ = _
    rw [List.find?_append]
    cases hfind : List.find? (fun p => p.1 == slug2) state.channels with
    | some v => simp
    | none =>
      simp only [Option.none_orElse, List.find?_singleton]
      rw [if_neg (by simp; exact fun hh => absurd hh.symm h)]
      simp

-- ===========================================================================
-- C6: hasMore iff full page
-- ===========================================================================

/-- C6: for every collection slug and page number (the slug being baked into
the `remote` oracle), a successful `fetchChannelBlocks` call returns
`hasMore = true` if and only if the returned batch of items has exactly
`PER_PAGE` elements. -/
theorem c6_hasMore_iff_full_page (remote : Nat → Except Nat (List ArenaBlock))
    (page : Nat) (blocks : List ArenaBlock) (hasMore : Bool)
    (h : fetchChannelBlocks remote page = Except.ok (blocks, hasMore)) :
    hasMore = true ↔ blocks.length = PER_PAGE := by
  unfold fetchChannelBlocks at h
  cases hr : remote page with
  | error s => rw [hr] at h; exact absurd h (by simp)
  | ok contents =>
    rw [hr] at h
    simp only [Except.ok.injEq, Prod.mk.injEq] at h
    obtain ⟨hb, hm⟩ := h
    subst hb
    subst hm
    simp

/-- Witness for C6 at a concrete page (an empty page: `hasMore` is false and
the batch is not full). -/
theorem c6_hasMore_iff_full_page_witness :
    false = true ↔ ([] : List ArenaBlock).length = PER_PAGE :=
  c6_hasMore_iff_full_page (fun _ => Except.ok []) 1 [] false rfl

-- ===========================================================================
-- C8: arenaFetch retry / error behavior
-- ===========================================================================

/-- Closed-form characterization of `arenaFetch` over the response sequence:
the sleeps are exactly one advised duration per leading 429, and the outcome
is decided by the first non-429 response. -/
lemma arenaFetch_char {β : Type} (rs : List (ArenaResponse β)) :
    arenaFetch rs = ((rs.takeWhile (fun r => r.status == 429)).map
        (fun r => r.retryAfterHeader.getD 60 * 1000),
      (rs.find? (fun r => r.status != 429)).map
        (fun r => if respOk r then Except.ok r.body else Except.error r.status)) := by
  induction rs with
  | nil => rfl
  | cons r rest ih =>
    by_cases h : r.status = 429
    · have hb : (r.status == 429) = true := by simpa using h
      show arenaFetch (r :: rest) = _
      rw [arenaFetch, if_pos hb, ih]
      rw [List.find?_cons_of_neg _ (by simp [h]), List.takeWhile_cons, hb]
      simp
    · have hb : (r.status == 429) = false := by simpa using h
      show arenaFetch (r :: rest) = _
      rw [arenaFetch, if_neg (by simp [h])]
      rw [List.find?_cons_of_pos _ (by simpa using h), List.takeWhile_cons, hb]
      by_cases hok : respOk r = true
      · rw [if_pos hok]
        simp [hok]
      · rw [if_neg hok]
        simp [Bool.eq_false_iff.mpr hok]

/-- C8: behavior of `arenaFetch` over any sequence of server responses to
its (identical) retried request. (1) On a rate-limit response it sleeps the
server-advised duration (`retry-after`, default 60s, in ms) and retries,
consuming the remaining responses. (2) It raises an error if and only if
the first non-rate-limit response is a non-success, and the raised error
carries that response's status code. (3) A success response never raises:
if the first non-rate-limit response is a 2xx, the body is returned.
(4) A rate-limit response never surfaces to the caller: any surfaced
outcome stems from a non-429 response. -/
theorem c8_arenaFetch_retry_and_error {β : Type} (rs : List (ArenaResponse β)) :
    (∀ (ra : Option Nat) (body : β) (rest : List (ArenaResponse β)),
      arenaFetch (ArenaResponse.mk 429 ra body :: rest) =
        (ra.getD 60 * 1000 :: (arenaFetch rest).1, (arenaFetch rest).2)) ∧
    (∀ s : Nat, (arenaFetch rs).2 = some (Except.error s) ↔
      ∃ r, rs.find? (fun r => r.status != 429) = some r ∧ respOk r = false ∧ s = r.status) ∧
    (∀ r, rs.find? (fun r => r.status != 429) = some r → respOk r = true →
      (arenaFetch rs).2 = some (Except.ok r.body)) ∧
    (∀ e, (arenaFetch rs).2 = some e →
      ∃ r, rs.find? (fun r => r.status != 429) = some r ∧ r.status ≠ 429) := by
  refine ⟨?_, ?_, ?_, ?_⟩
  · intro ra body rest
    rw [arenaFetch, if_pos (by simp)]
  · intro s
    rw [arenaFetch_char]
    constructor
    · intro h
      cases hf : rs.find? (fun r => r.status != 429) with
      | none => rw [hf] at h; exact absurd h (by simp)
      | some r =>
        rw [hf] at h
        by_cases hok : respOk r = true
        · simp [hok] at h
        · have hok2 : respOk r = false := Bool.eq_false_iff.mpr hok
          simp [hok2] at h
          exact ⟨r, rfl, hok2, h.symm⟩
    · rintro ⟨r, hf, hok, hs⟩
      rw [hf, hs]
      simp [hok]
  · intro r hf hok
    rw [arenaFetch_char, hf]
    simp [hok]
  · intro e he
    rw [arenaFetch_char] at he
    cases hf : rs.find? (fun r => r.status != 429) with
    | none => rw [hf] at he; exact absurd he (by simp)
    | some r =>
      refine ⟨r, rfl, ?_⟩
      have := List.find?_some hf
      simpa using this

/-- Witness for C8: a concrete run — one 429 advising 7 seconds, then a
500 — sleeps 7000 ms once and raises an error carrying status 500. -/
theorem c8_arenaFetch_retry_and_error_witness :
    (arenaFetch [ArenaResponse.mk 429 (some 7) (0 : Nat), ArenaResponse.mk 500 none 0]).2 =
      some (Except.error 500) :=
  ((c8_arenaFetch_retry_and_error
      [ArenaResponse.mk 429 (some 7) (0 : Nat), ArenaResponse.mk 500 none 0]).2.1 500).mpr
    ⟨ArenaResponse.mk 500 none 0, by decide, by decide, rfl⟩

-- ===========================================================================
-- C10: backfill skip of fully backfilled channels
-- ===========================================================================

/-- C10: in backfill mode, a channel whose stored state is flagged
`fully_backfilled` is skipped entirely: no page is fetched, no record is
written, the state document is unchanged, and zero new / zero updated
records are reported. -/
theorem c10_backfill_skip (remote : Nat → Except Nat (List ArenaBlock))
    (images : String → Nat → Option String) (channel : ArenaChannel)
    (store : BlockStore) (state : ExportState) (di : Bool) (now fuel : Nat)
    (cs : ChannelState) (hcs : lookupChannel state channel.slug = some cs)
    (hfb : cs.fully_backfilled = true) :
    exportChannel remote images channel store state ⟨true, di⟩ now fuel =
      { store := store, state := state, newBlocks := 0, updatedBlocks := 0,
        runNewestId := none, runOldestId := none, fetchedPages := [], processed := [],
        exit := LoopExit.ended } := by
  unfold exportChannel
  rw [hcs]
  simp [Option.getD, hfb]

/-- Witness for C10 at a concrete fully-backfilled channel. -/
theorem c10_backfill_skip_witness :
    exportChannel (fun _ => Except.error 500) (fun _ _ => none) ⟨1, "T", "t", 3⟩ []
        ⟨[("t", ⟨"t", "T", some 9, some 4, 6, 0, true⟩)]⟩ ⟨true, false⟩ 0 5 =
      { store := [], state := ⟨[("t", ⟨"t", "T", some 9, some 4, 6, 0, true⟩)]⟩,
        newBlocks := 0, updatedBlocks := 0, runNewestId := none, runOldestId := none,
        fetchedPages := [], processed := [], exit := LoopExit.ended } :=
  c10_backfill_skip (fun _ => Except.error 500) (fun _ _ => none) ⟨1, "T", "t", 3⟩ []
    ⟨[("t", ⟨"t", "T", some 9, some 4, 6, 0, true⟩)]⟩ false 0 5
    ⟨"t", "T", some 9, some 4, 6, 0, true⟩ rfl rfl

-- ===========================================================================
-- C1: merging an existing record via a new collection
-- ===========================================================================

/-- C1 (evaluation at the failing input): a stored record with id 7,
membership `["a"]`, a cached media path and an enrichment payload is synced
via the new collection "b". The resulting record has the claimed membership
union `["a", "b"]` and keeps `image_local`, but its `vision` enrichment has
been dropped (`convertBlock` rebuilds the record without a `vision` key),
contradicting the claim that the enrichment payload is left unchanged. -/
theorem c1_sync_drops_enrichment_eval :
    (loadBlock [c1Existing] 7).map (fun b => b.vision) = some (some c1Vision) ∧
    (loadBlock (exportChannel c1Remote (fun _ _ => none) c1Channel [c1Existing] ⟨[]⟩
        ⟨false, false⟩ 99 5).store 7).map (fun b => (b.channels, b.vision, b.image_local)) =
      some (["a", "b"], (none : Option VisionEnrichment), some "7.jpg") := by
  decide

-- ===========================================================================
-- C5: short pages and the fully_backfilled flag
-- ===========================================================================

/-- C5 counterexample: a pass over a collection whose first page is empty
(zero items, hence fewer than the page size) stops paging after that page,
but leaves `fully_backfilled` at `false` — the claim asserts the flag is
set for every short page including an empty one. -/
theorem c5_empty_page_cex :
    (exportChannel c5Remote (fun _ _ => none) c5Channel [] ⟨[]⟩
        ⟨false, false⟩ 7 9).fetchedPages = [1] ∧
    (exportChannel c5Remote (fun _ _ => none) c5Channel [] ⟨[]⟩
        ⟨false, false⟩ 7 9).exit = LoopExit.ended ∧
    (lookupChannel (exportChannel c5Remote (fun _ _ => none) c5Channel [] ⟨[]⟩
        ⟨false, false⟩ 7 9).state "demo").map (fun cs => cs.fully_backfilled) =
      some false := by
  decide

/-- C5 as amended: whenever a fetched page holds fewer items than the page
size, the orchestrator stops paging at that page (no higher page is
requested, the loop exits through a `break`); it additionally sets
`fully_backfilled` when the short page is non-empty, while a zero-item page
stops paging with the channel state (and the run accumulator) untouched. -/
theorem c5_short_page_amended (remote : Nat → Except Nat (List ArenaBlock))
    (images : String → Nat → Option String) (opts : SyncOptions) (slug : String)
    (now fuel page : Nat) (cs : ChannelState) (acc : RunAcc) (pages : List Nat)
    (processed : List ArenaBlock) (contents : List ArenaBlock)
    (hr : remote page = Except.ok contents)
    (hshort : (contents.filter (fun b => b.cls != "Channel")).length < PER_PAGE) :
    ((contents.filter (fun b => b.cls != "Channel")) = [] →
      syncLoop remote images opts slug now (fuel + 1) page cs acc pages processed =
        ⟨acc, cs, pages ++ [page], processed, LoopExit.ended⟩) ∧
    ((contents.filter (fun b => b.cls != "Channel")) ≠ [] →
      syncLoop remote images opts slug now (fuel + 1) page cs acc pages processed =
        ⟨(contents.filter (fun b => b.cls != "Channel")).foldl
            (processBlock images opts slug now) acc,
          { cs with fully_backfilled := true }, pages ++ [page],
          processed ++ (contents.filter (fun b => b.cls != "Channel")), LoopExit.ended⟩) := by
  have hfetch : fetchChannelBlocks remote page =
      Except.ok (contents.filter (fun b => b.cls != "Channel"),
        ((contents.filter (fun b => b.cls != "Channel")).length == PER_PAGE)) := by
    unfold fetchChannelBlocks
    rw [hr]
  have hmore : ((contents.filter (fun b => b.cls != "Channel")).length == PER_PAGE) = false := by
    simpa using Nat.ne_of_lt hshort
  constructor
  · intro hempty
    simp only [syncLoop, hfetch, hempty]
    simp
  · intro hne
    have hlen : ((contents.filter (fun b => b.cls != "Channel")).length == 0) = false := by
      simpa using fun hh => hne (List.length_eq_zero.mp hh)
    simp only [syncLoop, hfetch, hmore, hlen]
    simp

/-- Witness for C5 as amended, at a concrete empty page. -/
theorem c5_short_page_amended_witness :
    syncLoop c5Remote (fun _ _ => none) ⟨false, false⟩ "demo" 7 9 1
        ⟨"demo", "Demo", none, none, 0, 7, false⟩ ⟨[], none, none, 0, 0⟩ [] [] =
      ⟨⟨[], none, none, 0, 0⟩, ⟨"demo", "Demo", none, none, 0, 7, false⟩, [1], [],
        LoopExit.ended⟩ :=
  (c5_short_page_amended c5Remote (fun _ _ => none) ⟨false, false⟩ "demo" 7 8 1
      ⟨"demo", "Demo", none, none, 0, 7, false⟩ ⟨[], none, none, 0, 0⟩ [] [] [] rfl
      (by decide)).1 rfl

-- ===========================================================================
-- C2: when the watermark commit runs
-- ===========================================================================

set_option maxRecDepth 100000 in
/-- C2 counterexample: a pass that merges a full first page (ids
1000..1099) and then hits a RemoteError on page 2 leaves the state document
untouched: `newest_id` stays 5 instead of advancing to 1099, although the
100 fetched records were created in the store. The claim asserts the
watermark commit still executes on an ERROR exit. -/
theorem c2_watermark_commit_skipped_on_error_cex :
    (exportChannel c2Remote (fun _ _ => none) c2Channel [] c2State
        ⟨false, false⟩ 3 9).exit = LoopExit.errored 500 ∧
    (exportChannel c2Remote (fun _ _ => none) c2Channel [] c2State
        ⟨false, false⟩ 3 9).newBlocks = 100 ∧
    (loadBlock (exportChannel c2Remote (fun _ _ => none) c2Channel [] c2State
        ⟨false, false⟩ 3 9).store 1099).isSome = true ∧
    (exportChannel c2Remote (fun _ _ => none) c2Channel [] c2State
        ⟨false, false⟩ 3 9).state = c2State := by
  decide

/-- The paging loop never changes the stored watermark fields or counters
of the threaded `channelState`; at most it sets `fully_backfilled`. -/
lemma syncLoop_chState (remote : Nat → Except Nat (List ArenaBlock))
    (images : String → Nat → Option String) (opts : SyncOptions) (slug : String)
    (now : Nat) :
    ∀ fuel page cs acc pages processed,
      (syncLoop remote images opts slug now fuel page cs acc pages processed).chState = cs ∨
      (syncLoop remote images opts slug now fuel page cs acc pages processed).chState =
        { cs with fully_backfilled := true } := by
  intro fuel
  induction fuel with
  | zero => intro page cs acc pages processed; exact Or.inl rfl
  | succ fuel ih =>
    intro page cs acc pages processed
    cases hfetch : fetchChannelBlocks remote page with
    | error s =>
      simp only [syncLoop, hfetch]
      exact Or.inl (by trivial)
    | ok pr =>
      obtain ⟨blocks, hasMore⟩ := pr
      simp only [syncLoop, hfetch]
      by_cases hempty : (blocks.length == 0) = true
      · rw [if_pos hempty]
        exact Or.inl (by trivial)
      · rw [if_neg hempty]
        by_cases hmore : (!hasMore) = true
        · rw [if_pos hmore]
          exact Or.inr (by trivial)
        · rw [if_neg hmore]
          by_cases hbd : (opts.backfill && boundaryReached cs blocks) = true
          · rw [if_pos hbd]
            exact Or.inl (by trivial)
          · rw [if_neg hbd]
            exact ih (page + 1) cs _ _ _

/-- C2 as amended: the watermark commit runs exactly when the pass ends
without a fetch error. On a RemoteError exit the pass aborts before the
commit: the state document is returned unchanged (no min/max merge, no
counter increment), although records already merged remain in the store.
When the pass ends through a `break` of the paging loop (end of
collection, empty page, backfill boundary) — or through the backfill skip —
the committed entry for the channel merges the run-local minimum into
`oldest_id` via min, the run-local maximum into `newest_id` via max, and
adds the number of newly created records to the cumulative counter. -/
theorem c2_watermark_commit_amended (remote : Nat → Except Nat (List ArenaBlock))
    (images : String → Nat → Option String) (channel : ArenaChannel)
    (store : BlockStore) (state : ExportState) (opts : SyncOptions) (now fuel : Nat) :
    (∀ s, (exportChannel remote images channel store state opts now fuel).exit =
        LoopExit.errored s →
      (exportChannel remote images channel store state opts now fuel).state = state) ∧
    ((exportChannel remote images channel store state opts now fuel).exit = LoopExit.ended →
      ∃ cs1,
        lookupChannel (exportChannel remote images channel store state opts now fuel).state
            channel.slug = some cs1 ∧
        cs1.newest_id = maxMerge ((lookupChannel state channel.slug).getD
            (defaultChannelState channel now)).newest_id
          (exportChannel remote images channel store state opts now fuel).runNewestId ∧
        cs1.oldest_id = minMerge ((lookupChannel state channel.slug).getD
            (defaultChannelState channel now)).oldest_id
          (exportChannel remote images channel store state opts now fuel).runOldestId ∧
        cs1.total_exported = ((lookupChannel state channel.slug).getD
            (defaultChannelState channel now)).total_exported +
          (exportChannel remote images channel store state opts now fuel).newBlocks) := by
  simp only [exportChannel]
  by_cases hskip : (opts.backfill && ((lookupChannel state channel.slug).getD
      (defaultChannelState channel now)).fully_backfilled) = true
  · rw [if_pos hskip]
    constructor
    · intro s h
      exact absurd h (by simp)
    · intro _
      cases hl : lookupChannel state channel.slug with
      | none => simp [hl, defaultChannelState] at hskip
      | some cs =>
        refine ⟨cs, rfl, ?_, ?_, ?_⟩ <;> simp [maxMerge, minMerge]
  · rw [if_neg hskip]
    set L := syncLoop remote images opts channel.slug now fuel 1
        ((lookupChannel state channel.slug).getD (defaultChannelState channel now))
        { store := store, runNewestId := none, runOldestId := none,
          newBlocks := 0, updatedBlocks := 0 } [] [] with hL
    have hcs : L.chState = ((lookupChannel state channel.slug).getD
          (defaultChannelState channel now)) ∨
        L.chState = { ((lookupChannel state channel.slug).getD
          (defaultChannelState channel now)) with fully_backfilled := true } := by
      rw [hL]
      exact syncLoop_chState remote images opts channel.slug now fuel 1 _ _ [] []
    cases hexit : L.exit with
    | ended =>
      constructor
      · intro s h
        exact absurd h (by simp)
      · intro _
        refine ⟨commitWatermarks L.chState L.acc now, lookupChannel_setChannel _ _ _,
          ?_, ?_, ?_⟩ <;>
          rcases hcs with hcs | hcs <;> simp [commitWatermarks, hcs]
    | errored s2 =>
      constructor
      · intro s h
        rfl
      · intro h
        exact absurd h (by simp)
    | fuelOut =>
      constructor
      · intro s h
        exact absurd h (by simp)
      · intro h
        exact absurd h (by simp)

/-- Witness for C2 as amended: the error conjunct applied to the concrete
aborted run (full page 1, then a 500). -/
theorem c2_watermark_commit_amended_witness :
    (exportChannel c2Remote (fun _ _ => none) c2Channel [] c2State
        ⟨false, false⟩ 3 9).state = c2State :=
  (c2_watermark_commit_amended c2Remote (fun _ _ => none) c2Channel [] c2State
      ⟨false, false⟩ 3 9).1 500 (by decide)

-- ===========================================================================
-- C7: backfill boundary
-- ===========================================================================

lemma contains_append_self (xs : List String) (s : String) :
    (xs ++ [s]).contains s = true := by
  induction xs with
  | nil => simp
  | cons x xs ih => simp [List.contains_cons, ih]

lemma slugMember_saveBlock (slug : String) (store : BlockStore) (e : ExportedBlock)
    (i : Nat) (hid : e.id = i) (hc : e.channels.contains slug = true) :
    slugMember slug (saveBlock store e) i :=
  ⟨e, by rw [loadBlock_saveBlock, if_pos hid.symm], hc⟩

lemma slugMember_saveBlock_other (slug : String) (store : BlockStore) (e : ExportedBlock)
    (i : Nat) (hne : i ≠ e.id) (h : slugMember slug store i) :
    slugMember slug (saveBlock store e) i := by
  obtain ⟨x, hx1, hx2⟩ := h
  exact ⟨x, by rw [loadBlock_saveBlock, if_neg hne]; exact hx1, hx2⟩

/-- One `processBlock` step makes the processed block's record carry the
channel slug, and it never removes the slug from any record that already
carries it. -/
lemma processBlock_slugMember (images : String → Nat → Option String) (opts : SyncOptions)
    (slug : String) (now : Nat) (acc : RunAcc) (block : ArenaBlock) :
    slugMember slug (processBlock images opts slug now acc block).store block.id ∧
    ∀ i, slugMember slug acc.store i →
      slugMember slug (processBlock images opts slug now acc block).store i := by
  simp only [processBlock]
  cases hex : loadBlock acc.store block.id with
  | some ex =>
    dsimp only
    by_cases hc : ex.channels.contains slug = true
    · rw [if_pos hc]
      exact ⟨⟨ex, hex, hc⟩, fun i hi => hi⟩
    · rw [if_neg hc]
      have hconv : (convertBlock acc.store block slug now).channels =
          ex.channels ++ [slug] := by
        simp only [convertBlock, hex]
        rw [if_neg (by simpa using hc)]
      have hid : (convertBlock acc.store block slug now).id = block.id := rfl
      have hcc : (convertBlock acc.store block slug now).channels.contains slug = true := by
        rw [hconv]
        exact contains_append_self ex.channels slug
      constructor
      · exact slugMember_saveBlock slug acc.store _ block.id hid hcc
      · intro i hi
        by_cases hib : i = block.id
        · exact slugMember_saveBlock slug acc.store _ i (hid.trans hib.symm) hcc
        · exact slugMember_saveBlock_other slug acc.store _ i
            (fun hh => hib (hh.trans hid)) hi
  | none =>
    dsimp only
    have hconv : (convertBlock acc.store block slug now).channels = [slug] := by
      simp only [convertBlock, hex]
      rw [if_neg (by simp)]
      rfl
    have hch : ((if opts.downloadImages then
        match (convertBlock acc.store block slug now).image_url with
        | some u => { convertBlock acc.store block slug now with image_local := images u block.id }
        | none => convertBlock acc.store block slug now
      else convertBlock acc.store block slug now) : ExportedBlock).channels =
        (convertBlock acc.store block slug now).channels ∧
        ((if opts.downloadImages then
        match (convertBlock acc.store block slug now).image_url with
        | some u => { convertBlock acc.store block slug now with image_local := images u block.id }
        | none => convertBlock acc.store block slug now
      else convertBlock acc.store block slug now) : ExportedBlock).id = block.id := by
      by_cases hd : opts.downloadImages = true
      · rw [if_pos hd]
        cases (convertBlock acc.store block slug now).image_url with
        | some u => exact ⟨rfl, rfl⟩
        | none => exact ⟨rfl, rfl⟩
      · rw [if_neg hd]
        exact ⟨rfl, rfl⟩
    obtain ⟨hch1, hch2⟩ := hch
    have hcc2 : ((if opts.downloadImages then
        match (convertBlock acc.store block slug now).image_url with
        | some u => { convertBlock acc.store block slug now with image_local := images u block.id }
        | none => convertBlock acc.store block slug now
      else convertBlock acc.store block slug now) : ExportedBlock).channels.contains slug
        = true := by
      rw [hch1, hconv]
      simp [List.contains_cons]
    constructor
    · exact slugMember_saveBlock slug acc.store _ block.id hch2 hcc2
    · intro i hi
      by_cases hib : i = block.id
      · exact slugMember_saveBlock slug acc.store _ i (hch2.trans hib.symm) hcc2
      · exact slugMember_saveBlock_other slug acc.store _ i
          (fun hh => hib (hh.trans hch2)) hi

/-- Folding `processBlock` over a page establishes membership for every
block of the page and preserves it everywhere else. -/
lemma foldl_processBlock_slugMember (images : String → Nat → Option String)
    (opts : SyncOptions) (slug : String) (now : Nat) :
    ∀ (blocks : List ArenaBlock) (acc : RunAcc),
      (∀ b ∈ blocks, slugMember slug
        (blocks.foldl (processBlock images opts slug now) acc).store b.id) ∧
      ∀ i, slugMember slug acc.store i →
        slugMember slug (blocks.foldl (processBlock images opts slug now) acc).store i := by
  intro blocks
  induction blocks with
  | nil => intro acc; exact ⟨by simp, fun i hi => hi⟩
  | cons b rest ih =>
    intro acc
    rw [List.foldl_cons]
    obtain ⟨hest, hpres⟩ := processBlock_slugMember images opts slug now acc b
    obtain ⟨ih1, ih2⟩ := ih (processBlock images opts slug now acc b)
    constructor
    · intro x hx
      rcases List.mem_cons.mp hx with hx | hx
      · subst hx
        exact ih2 _ hest
      · exact ih1 x hx
    · intro i hi
      exact ih2 i (hpres i hi)

/-- C7: in backfill mode with a stored `oldest_id = some o`, if the current
page (non-empty after filtering) contains an item with id ≤ o, then the
loop requests no page beyond the current one, exits through a `break`
(BACKFILL_BOUNDARY_HIT or, if the page was short, END_OF_COLLECTION), and
every item of the page has first been merged: its record is on disk with
the collection in its membership. -/
theorem c7_backfill_boundary (remote : Nat → Except Nat (List ArenaBlock))
    (images : String → Nat → Option String) (di : Bool) (slug : String)
    (now fuel page : Nat) (cs : ChannelState) (acc : RunAcc) (pages : List Nat)
    (processed : List ArenaBlock) (contents : List ArenaBlock) (o : Nat)
    (hold : cs.oldest_id = some o)
    (hr : remote page = Except.ok contents)
    (hne : contents.filter (fun b => b.cls != "Channel") ≠ [])
    (hhit : ∃ b ∈ contents.filter (fun b => b.cls != "Channel"), b.id ≤ o) :
    (syncLoop remote images ⟨true, di⟩ slug now (fuel + 1) page cs acc pages
        processed).fetchedPages = pages ++ [page] ∧
    (syncLoop remote images ⟨true, di⟩ slug now (fuel + 1) page cs acc pages
        processed).exit = LoopExit.ended ∧
    ∀ b ∈ contents.filter (fun b => b.cls != "Channel"),
      slugMember slug (syncLoop remote images ⟨true, di⟩ slug now (fuel + 1) page cs acc
        pages processed).acc.store b.id := by
  have hfetch : fetchChannelBlocks remote page =
      Except.ok (contents.filter (fun b => b.cls != "Channel"),
        ((contents.filter (fun b => b.cls != "Channel")).length == PER_PAGE)) := by
    unfold fetchChannelBlocks
    rw [hr]
  have hlen : ((contents.filter (fun b => b.cls != "Channel")).length == 0) = false := by
    simpa using fun hh => hne (List.length_eq_zero.mp hh)
  obtain ⟨hmem, _⟩ := foldl_processBlock_slugMember images ⟨true, di⟩ slug now
    (contents.filter (fun b => b.cls != "Channel")) acc
  simp only [syncLoop, hfetch, hlen]
  by_cases hmore : (contents.filter (fun b => b.cls != "Channel")).length == PER_PAGE
  · have hbd : boundaryReached cs (contents.filter (fun b => b.cls != "Channel")) = true := by
      unfold boundaryReached
      rw [hold]
      obtain ⟨b, hb1, hb2⟩ := hhit
      exact List.any_eq_true.mpr ⟨b, hb1, by simpa using hb2⟩
    simp only [hmore, hbd]
    norm_num
    intro b hb hbc
    exact hmem b (List.mem_filter.mpr ⟨hb, by simpa using hbc⟩)
  · have hmore2 : ((contents.filter (fun b => b.cls != "Channel")).length == PER_PAGE)
        = false := by
      simpa using hmore
    simp only [hmore2]
    norm_num
    intro b hb hbc
    exact hmem b (List.mem_filter.mpr ⟨hb, by simpa using hbc⟩)

/-- Witness for C7: a one-item page with id 40 against a stored
`oldest_id = 50` stops at page 1 with the item merged. -/
theorem c7_backfill_boundary_witness :
    (syncLoop (fun _ => Except.ok [c2Block 40]) (fun _ _ => none) ⟨true, false⟩ "demo" 3 9 1
        ⟨"demo", "Demo", some 90, some 50, 1, 0, false⟩ ⟨[], none, none, 0, 0⟩ []
        []).fetchedPages = [1] ∧
    (syncLoop (fun _ => Except.ok [c2Block 40]) (fun _ _ => none) ⟨true, false⟩ "demo" 3 9 1
        ⟨"demo", "Demo", some 90, some 50, 1, 0, false⟩ ⟨[], none, none, 0, 0⟩ []
        []).exit = LoopExit.ended ∧
    ∀ b ∈ [c2Block 40].filter (fun b => b.cls != "Channel"),
      slugMember "demo" (syncLoop (fun _ => Except.ok [c2Block 40]) (fun _ _ => none)
        ⟨true, false⟩ "demo" 3 9 1 ⟨"demo", "Demo", some 90, some 50, 1, 0, false⟩
        ⟨[], none, none, 0, 0⟩ [] []).acc.store b.id := by
  have h := c7_backfill_boundary (fun _ => Except.ok [c2Block 40]) (fun _ _ => none) false
    "demo" 3 8 1 ⟨"demo", "Demo", some 90, some 50, 1, 0, false⟩ ⟨[], none, none, 0, 0⟩
    [] [] [c2Block 40] 50 rfl rfl (by decide) ⟨c2Block 40, by decide, by decide⟩
  exact ⟨h.1, h.2.1, h.2.2⟩

-- ===========================================================================
-- C3: monotonic watermarks
-- ===========================================================================

lemma newestLe_refl (a : Option Nat) : newestLe a a :=
  fun n h => ⟨n, h, le_refl n⟩

lemma oldestGe_refl (a : Option Nat) : oldestGe a a :=
  fun n h => ⟨n, h, le_refl n⟩

lemma newestLe_trans {a b c : Option Nat} (h1 : newestLe a b) (h2 : newestLe b c) :
    newestLe a c := by
  intro n hn
  obtain ⟨m, hm, hnm⟩ := h1 n hn
  obtain ⟨k, hk, hmk⟩ := h2 m hm
  exact ⟨k, hk, le_trans hnm hmk⟩

lemma oldestGe_trans {a b c : Option Nat} (h1 : oldestGe a b) (h2 : oldestGe b c) :
    oldestGe a c := by
  intro n hn
  obtain ⟨m, hm, hnm⟩ := h1 n hn
  obtain ⟨k, hk, hmk⟩ := h2 m hm
  exact ⟨k, hk, le_trans hmk hnm⟩

/-- The max-merge of the commit only raises `newest_id`. -/
lemma newestLe_maxMerge (a r : Option Nat) : newestLe a (maxMerge a r) := by
  intro n hn
  cases r with
  | none => exact ⟨n, by rw [maxMerge, hn], le_refl n⟩
  | some rn =>
    rw [hn]
    by_cases h : rn > n
    · exact ⟨rn, by rw [maxMerge]; simp [h], le_of_lt h⟩
    · exact ⟨n, by rw [maxMerge]; simp [h], le_refl n⟩

/-- The min-merge of the commit only lowers `oldest_id`. -/
lemma oldestGe_minMerge (a r : Option Nat) : oldestGe a (minMerge a r) := by
  intro n hn
  cases r with
  | none => exact ⟨n, by rw [minMerge, hn], le_refl n⟩
  | some ro =>
    rw [hn]
    by_cases h : ro < n
    · exact ⟨ro, by rw [minMerge]; simp [h], le_of_lt h⟩
    · exact ⟨n, by rw [minMerge]; simp [h], le_refl n⟩

/-- Merging well-formed run trackers into a pair satisfying the watermark
invariant preserves the invariant. -/
lemma wmPairInv_merge (n0 o0 rN rO : Option Nat) (hwf : trackersWF rN rO)
    (hinv : wmPairInv (n0, o0)) : wmPairInv (maxMerge n0 rN, minMerge o0 rO) := by
  intro a b ha hb
  cases hrN : rN with
  | none =>
    have hrO : rO = none := hwf.1.mp hrN
    rw [hrN] at ha
    rw [hrO] at hb
    rw [maxMerge] at ha
    rw [minMerge] at hb
    exact hinv a b ha hb
  | some rn =>
    cases hrO : rO with
    | none => exact absurd (hwf.1.mpr hrO) (by rw [hrN]; simp)
    | some ro =>
      have hro : ro ≤ rn := hwf.2 rn ro hrN hrO
      have ha2 : rn ≤ a := by
        rw [hrN] at ha
        cases n0 with
        | none =>
          rw [maxMerge] at ha
          simp at ha
          omega
        | some n =>
          rw [maxMerge] at ha
          by_cases h : rn > n
          · simp [h] at ha; omega
          · simp [h] at ha; omega
      have hb2 : b ≤ ro := by
        rw [hrO] at hb
        cases o0 with
        | none =>
          rw [minMerge] at hb
          simp at hb
          omega
        | some o =>
          rw [minMerge] at hb
          by_cases h : ro < o
          · simp [h] at hb; omega
          · simp [h] at hb; omega
      omega

/-- Every branch of `processBlock` updates the run trackers through
`trackNewest` / `trackOldest`. -/
lemma processBlock_trackers (images : String → Nat → Option String) (opts : SyncOptions)
    (slug : String) (now : Nat) (acc : RunAcc) (block : ArenaBlock) :
    (processBlock images opts slug now acc block).runNewestId =
      trackNewest acc.runNewestId block.id ∧
    (processBlock images opts slug now acc block).runOldestId =
      trackOldest acc.runOldestId block.id := by
  simp only [processBlock]
  cases loadBlock acc.store block.id with
  | some ex =>
    dsimp only
    by_cases hc : ex.channels.contains slug = true
    · rw [if_pos hc]
      exact ⟨rfl, rfl⟩
    · rw [if_neg hc]
      exact ⟨rfl, rfl⟩
  | none => exact ⟨rfl, rfl⟩

/-- One tracker update preserves tracker well-formedness. -/
lemma trackersWF_track (rN rO : Option Nat) (i : Nat) (h : trackersWF rN rO) :
    trackersWF (trackNewest rN i) (trackOldest rO i) := by
  cases hrN : rN with
  | none =>
    have hrO : rO = none := h.1.mp hrN
    rw [hrO]
    constructor
    · simp [trackNewest, trackOldest]
    · intro a b ha hb
      simp [trackNewest] at ha
      simp [trackOldest] at hb
      omega
  | some n =>
    cases hrO : rO with
    | none => exact absurd (h.1.mpr hrO) (by rw [hrN]; simp)
    | some o =>
      have hno : o ≤ n := h.2 n o hrN hrO
      constructor
      · simp only [trackNewest, trackOldest]
        constructor
        · intro hh
          by_cases h1 : i > n <;> simp [h1] at hh
        · intro hh
          by_cases h2 : i < o <;> simp [h2] at hh
      · intro a b ha hb
        simp only [trackNewest] at ha
        simp only [trackOldest] at hb
        by_cases h1 : i > n
        · simp [h1] at ha
          by_cases h2 : i < o
          · simp [h2] at hb; omega
          · simp [h2] at hb; omega
        · simp [h1] at ha
          by_cases h2 : i < o
          · simp [h2] at hb; omega
          · simp [h2] at hb; omega

/-- Folding a page through `processBlock` preserves tracker well-formedness. -/
lemma foldl_processBlock_trackersWF (images : String → Nat → Option String)
    (opts : SyncOptions) (slug : String) (now : Nat) :
    ∀ (blocks : List ArenaBlock) (acc : RunAcc),
      trackersWF acc.runNewestId acc.runOldestId →
      trackersWF (blocks.foldl (processBlock images opts slug now) acc).runNewestId
        (blocks.foldl (processBlock images opts slug now) acc).runOldestId := by
  intro blocks
  induction blocks with
  | nil => intro acc h; exact h
  | cons b rest ih =>
    intro acc h
    rw [List.foldl_cons]
    apply ih
    obtain ⟨h1, h2⟩ := processBlock_trackers images opts slug now acc b
    rw [h1, h2]
    exact trackersWF_track acc.runNewestId acc.runOldestId b.id h

/-- The paging loop preserves tracker well-formedness. -/
lemma syncLoop_trackersWF (remote : Nat → Except Nat (List ArenaBlock))
    (images : String → Nat → Option String) (opts : SyncOptions) (slug : String)
    (now : Nat) :
    ∀ fuel page cs acc pages processed,
      trackersWF acc.runNewestId acc.runOldestId →
      trackersWF
        (syncLoop remote images opts slug now fuel page cs acc pages processed).acc.runNewestId
        (syncLoop remote images opts slug now fuel page cs acc pages processed).acc.runOldestId := by
  intro fuel
  induction fuel with
  | zero => intro page cs acc pages processed h; exact h
  | succ fuel ih =>
    intro page cs acc pages processed h
    cases hfetch : fetchChannelBlocks remote page with
    | error s =>
      simp only [syncLoop, hfetch]
      exact h
    | ok pr =>
      obtain ⟨blocks, hasMore⟩ := pr
      simp only [syncLoop, hfetch]
      by_cases hempty : (blocks.length == 0) = true
      · rw [if_pos hempty]
        exact h
      · rw [if_neg hempty]
        have hfold := foldl_processBlock_trackersWF images opts slug now blocks acc h
        by_cases hmore : (!hasMore) = true
        · rw [if_pos hmore]
          exact hfold
        · rw [if_neg hmore]
          by_cases hbd : (opts.backfill && boundaryReached cs blocks) = true
          · rw [if_pos hbd]
            exact hfold
          · rw [if_neg hbd]
            exact ih (page + 1) cs _ _ _ hfold

/-- One sync pass, over any channel in any mode, only raises `newest_id`,
only lowers `oldest_id`, and preserves the watermark-pair invariant, for
every collection slug. -/
lemma exportChannel_wm_step (remote : Nat → Except Nat (List ArenaBlock))
    (images : String → Nat → Option String) (channel : ArenaChannel)
    (store : BlockStore) (state : ExportState) (opts : SyncOptions) (now fuel : Nat)
    (slug : String) :
    newestLe (watermarksOf state slug).1
      (watermarksOf (exportChannel remote images channel store state opts now fuel).state
        slug).1 ∧
    oldestGe (watermarksOf state slug).2
      (watermarksOf (exportChannel remote images channel store state opts now fuel).state
        slug).2 ∧
    (wmPairInv (watermarksOf state slug) →
      wmPairInv (watermarksOf (exportChannel remote images channel store state opts now
        fuel).state slug)) := by
  simp only [exportChannel]
  by_cases hskip : (opts.backfill && ((lookupChannel state channel.slug).getD
      (defaultChannelState channel now)).fully_backfilled) = true
  · rw [if_pos hskip]
    exact ⟨newestLe_refl _, oldestGe_refl _, fun h => h⟩
  · rw [if_neg hskip]
    set L := syncLoop remote images opts channel.slug now fuel 1
        ((lookupChannel state channel.slug).getD (defaultChannelState channel now))
        { store := store, runNewestId := none, runOldestId := none,
          newBlocks := 0, updatedBlocks := 0 } [] [] with hL
    cases hexit : L.exit with
    | errored s2 => exact ⟨newestLe_refl _, oldestGe_refl _, fun h => h⟩
    | fuelOut => exact ⟨newestLe_refl _, oldestGe_refl _, fun h => h⟩
    | ended =>
      by_cases hslug : slug = channel.slug
      · subst hslug
        have hwf : trackersWF L.acc.runNewestId L.acc.runOldestId := by
          rw [hL]
          apply syncLoop_trackersWF remote images opts channel.slug now fuel 1 _ _ [] []
          constructor
          · simp
          · intro a b ha hb
            cases ha
        have hcs := syncLoop_chState remote images opts channel.slug now fuel 1
          ((lookupChannel state channel.slug).getD (defaultChannelState channel now))
          ⟨store, none, none, 0, 0⟩ [] []
        rw [← hL] at hcs
        have hnew : watermarksOf
            (setChannel state channel.slug (commitWatermarks L.chState L.acc now))
              channel.slug =
            (maxMerge ((lookupChannel state channel.slug).getD
                (defaultChannelState channel now)).newest_id L.acc.runNewestId,
             minMerge ((lookupChannel state channel.slug).getD
                (defaultChannelState channel now)).oldest_id L.acc.runOldestId) := by
          rw [watermarksOf, lookupChannel_setChannel]
          rcases hcs with hcs | hcs <;> simp [commitWatermarks, hcs]
        rw [hnew]
        cases hlk : lookupChannel state channel.slug with
        | some cs0 =>
          rw [watermarksOf, hlk]
          refine ⟨newestLe_maxMerge _ _, oldestGe_minMerge _ _, fun hi => ?_⟩
          exact wmPairInv_merge _ _ _ _ hwf hi
        | none =>
          rw [watermarksOf, hlk]
          refine ⟨fun n h => absurd h (by simp), fun n h => absurd h (by simp), fun _ => ?_⟩
          apply wmPairInv_merge _ _ _ _ hwf
          intro a b ha hb
          exact absurd ha (by simp [defaultChannelState])
      · rw [watermarksOf, watermarksOf, lookupChannel_setChannel_ne state channel.slug slug _
          hslug]
        exact ⟨newestLe_refl _, oldestGe_refl _, fun h => h⟩

/-- C3: across any sequence of completed sync runs (incremental or
backfill, over any channels, starting from any state), the stored
watermarks of every collection are monotonic — `oldest_id` never
increases, `newest_id` never decreases — and the invariant
`newest_id ≥ oldest_id` (whenever both are set) is preserved. -/
theorem c3_watermarks_monotonic (runs : List SyncRun) :
    ∀ (store : BlockStore) (state : ExportState) (slug : String),
    newestLe (watermarksOf state slug).1
      (watermarksOf (applyRuns runs (store, state)).2 slug).1 ∧
    oldestGe (watermarksOf state slug).2
      (watermarksOf (applyRuns runs (store, state)).2 slug).2 ∧
    (wmPairInv (watermarksOf state slug) →
      wmPairInv (watermarksOf (applyRuns runs (store, state)).2 slug)) := by
  induction runs with
  | nil =>
    intro store state slug
    exact ⟨newestLe_refl _, oldestGe_refl _, fun h => h⟩
  | cons run rest ih =>
    intro store state slug
    rw [applyRuns]
    obtain ⟨h1, h2, h3⟩ := exportChannel_wm_step run.remote run.images run.channel store
      state run.opts run.now run.fuel slug
    obtain ⟨g1, g2, g3⟩ := ih (applyRun store state run).1 (applyRun store state run).2 slug
    exact ⟨newestLe_trans h1 g1, oldestGe_trans h2 g2, fun hi => g3 (h3 hi)⟩

/-- Witness for C3: a two-run sequence (an incremental pass over an empty
remote, then a backfill pass that errors) starting from watermarks (5, 5). -/
theorem c3_watermarks_monotonic_witness :
    newestLe (watermarksOf c2State "demo").1
      (watermarksOf (applyRuns
        [⟨c5Remote, fun _ _ => none, c2Channel, ⟨false, false⟩, 7, 9⟩,
         ⟨c2Remote, fun _ _ => none, c2Channel, ⟨true, false⟩, 8, 9⟩]
        ([], c2State)).2 "demo").1 ∧
    oldestGe (watermarksOf c2State "demo").2
      (watermarksOf (applyRuns
        [⟨c5Remote, fun _ _ => none, c2Channel, ⟨false, false⟩, 7, 9⟩,
         ⟨c2Remote, fun _ _ => none, c2Channel, ⟨true, false⟩, 8, 9⟩]
        ([], c2State)).2 "demo").2 ∧
    (wmPairInv (watermarksOf c2State "demo") →
      wmPairInv (watermarksOf (applyRuns
        [⟨c5Remote, fun _ _ => none, c2Channel, ⟨false, false⟩, 7, 9⟩,
         ⟨c2Remote, fun _ _ => none, c2Channel, ⟨true, false⟩, 8, 9⟩]
        ([], c2State)).2 "demo")) :=
  c3_watermarks_monotonic
    [⟨c5Remote, fun _ _ => none, c2Channel, ⟨false, false⟩, 7, 9⟩,
     ⟨c2Remote, fun _ _ => none, c2Channel, ⟨true, false⟩, 8, 9⟩]
    [] c2State "demo"

-- ===========================================================================
-- C4: idempotence of a repeated sync pass
-- ===========================================================================

/-- Processing a block whose record already carries the channel does not
touch the store or the counters; only the trackers move. -/
lemma processBlock_noop (images : String → Nat → Option String) (opts : SyncOptions)
    (slug : String) (now : Nat) (acc : RunAcc) (block : ArenaBlock)
    (h : slugMember slug acc.store block.id) :
    processBlock images opts slug now acc block =
      { acc with runNewestId := trackNewest acc.runNewestId block.id,
                 runOldestId := trackOldest acc.runOldestId block.id } := by
  obtain ⟨ex, hex, hc⟩ := h
  simp only [processBlock, hex]
  rw [if_pos hc]

/-- The run trackers after a page fold depend only on the starting trackers
and the ids of the page. -/
lemma foldl_processBlock_trackers (images : String → Nat → Option String)
    (opts : SyncOptions) (slug : String) (now : Nat) :
    ∀ (blocks : List ArenaBlock) (acc : RunAcc),
      (blocks.foldl (processBlock images opts slug now) acc).runNewestId =
        foldNewest acc.runNewestId blocks ∧
      (blocks.foldl (processBlock images opts slug now) acc).runOldestId =
        foldOldest acc.runOldestId blocks := by
  intro blocks
  induction blocks with
  | nil => intro acc; exact ⟨rfl, rfl⟩
  | cons b rest ih =>
    intro acc
    rw [List.foldl_cons]
    obtain ⟨h1, h2⟩ := processBlock_trackers images opts slug now acc b
    obtain ⟨g1, g2⟩ := ih (processBlock images opts slug now acc b)
    exact ⟨by rw [g1, h1]; rfl, by rw [g2, h2]; rfl⟩

/-- A page all of whose blocks already carry the channel folds to a pure
tracker update. -/
lemma foldl_processBlock_noop (images : String → Nat → Option String)
    (opts : SyncOptions) (slug : String) (now : Nat) :
    ∀ (blocks : List ArenaBlock) (acc : RunAcc),
      (∀ b ∈ blocks, slugMember slug acc.store b.id) →
      blocks.foldl (processBlock images opts slug now) acc =
        { acc with runNewestId := foldNewest acc.runNewestId blocks,
                   runOldestId := foldOldest acc.runOldestId blocks } := by
  intro blocks
  induction blocks with
  | nil => intro acc _; rfl
  | cons b rest ih =>
    intro acc h
    rw [List.foldl_cons, processBlock_noop images opts slug now acc b (h b (by simp))]
    have hih := ih
      { store := acc.store, runNewestId := trackNewest acc.runNewestId b.id,
        runOldestId := trackOldest acc.runOldestId b.id, newBlocks := acc.newBlocks,
        updatedBlocks := acc.updatedBlocks }
      (fun x hx => h x (by simp [hx]))
    rw [hih]
    rfl

/-- The paging loop preserves channel membership of every record. -/
lemma syncLoop_slugMember_pres (remote : Nat → Except Nat (List ArenaBlock))
    (images : String → Nat → Option String) (opts : SyncOptions) (slug : String)
    (now : Nat) :
    ∀ fuel page cs acc pages processed i,
      slugMember slug acc.store i →
      slugMember slug
        (syncLoop remote images opts slug now fuel page cs acc pages processed).acc.store
        i := by
  intro fuel
  induction fuel with
  | zero => intro page cs acc pages processed i h; exact h
  | succ fuel ih =>
    intro page cs acc pages processed i h
    cases hfetch : fetchChannelBlocks remote page with
    | error s =>
      simp only [syncLoop, hfetch]
      exact h
    | ok pr =>
      obtain ⟨blocks, hasMore⟩ := pr
      simp only [syncLoop, hfetch]
      by_cases hempty : (blocks.length == 0) = true
      · rw [if_pos hempty]
        exact h
      · rw [if_neg hempty]
        have hfold := (foldl_processBlock_slugMember images opts slug now blocks acc).2 i h
        by_cases hmore : (!hasMore) = true
        · rw [if_pos hmore]
          exact hfold
        · rw [if_neg hmore]
          by_cases hbd : (opts.backfill && boundaryReached cs blocks) = true
          · rw [if_pos hbd]
            exact hfold
          · rw [if_neg hbd]
            exact ih (page + 1) cs _ _ _ i hfold

/-- Re-merging the same run-local maximum a second time is absorbed. -/
lemma maxMerge_absorb (a t : Option Nat) : maxMerge (maxMerge a t) t = maxMerge a t := by
  cases t with
  | none => rfl
  | some tn =>
    cases a with
    | none => simp [maxMerge]
    | some n =>
      by_cases h : tn > n
      · simp [maxMerge, h]
      · simp [maxMerge, h]

/-- Re-merging the same run-local minimum a second time is absorbed. -/
lemma minMerge_absorb (a t : Option Nat) : minMerge (minMerge a t) t = minMerge a t := by
  cases t with
  | none => rfl
  | some tn =>
    cases a with
    | none => simp [minMerge]
    | some n =>
      by_cases h : tn < n
      · simp [minMerge, h]
      · simp [minMerge, h]

/-- Lockstep simulation of a repeated paging loop in incremental mode: a
second loop over the same remote, starting from the first loop's final
store (every served block of every visited page already carries the
channel), visits the same pages, leaves the store untouched, creates and
updates nothing, computes the same run trackers, and ends the same way. -/
lemma syncLoop_lockstep (remote : Nat → Except Nat (List ArenaBlock))
    (images : String → Nat → Option String) (opts : SyncOptions) (slug : String)
    (now1 now2 : Nat) (hbf : opts.backfill = false) :
    ∀ (fuel page : Nat) (cs cs2 : ChannelState) (acc : RunAcc) (pages pages2 : List Nat)
      (processed processed2 : List ArenaBlock) (n0 u0 : Nat) (r1 r2 : LoopResult),
      r1 = syncLoop remote images opts slug now1 fuel page cs acc pages processed →
      r2 = syncLoop remote images opts slug now2 fuel page cs2
        { store := r1.acc.store, runNewestId := acc.runNewestId,
          runOldestId := acc.runOldestId, newBlocks := n0, updatedBlocks := u0 }
        pages2 processed2 →
      r2.acc.store = r1.acc.store ∧ r2.acc.newBlocks = n0 ∧ r2.acc.updatedBlocks = u0 ∧
      r2.acc.runNewestId = r1.acc.runNewestId ∧ r2.acc.runOldestId = r1.acc.runOldestId ∧
      r2.exit = r1.exit := by
  intro fuel
  induction fuel with
  | zero =>
    intro page cs cs2 acc pages pages2 processed processed2 n0 u0 r1 r2 h1 h2
    subst h1
    subst h2
    exact ⟨rfl, rfl, rfl, rfl, rfl, rfl⟩
  | succ fuel ih =>
    intro page cs cs2 acc pages pages2 processed processed2 n0 u0 r1 r2 h1 h2
    cases hfetch : fetchChannelBlocks remote page with
    | error s =>
      have e1a : r1.acc = acc := by
        rw [h1]; simp only [syncLoop, hfetch]
      have e1b : r1.exit = LoopExit.errored s := by
        rw [h1]; simp only [syncLoop, hfetch]
      have e2a : r2.acc = ⟨r1.acc.store, acc.runNewestId, acc.runOldestId, n0, u0⟩ := by
        rw [h2]; simp only [syncLoop, hfetch]
      have e2b : r2.exit = LoopExit.errored s := by
        rw [h2]; simp only [syncLoop, hfetch]
      rw [e2a, e2b, e1b, e1a]
      exact ⟨rfl, rfl, rfl, rfl, rfl, rfl⟩
    | ok pr =>
      obtain ⟨blocks, hasMore⟩ := pr
      by_cases hempty : (blocks.length == 0) = true
      · have e1a : r1.acc = acc := by
          rw [h1]; simp only [syncLoop, hfetch]; rw [if_pos hempty]
        have e1b : r1.exit = LoopExit.ended := by
          rw [h1]; simp only [syncLoop, hfetch]; rw [if_pos hempty]
        have e2a : r2.acc = ⟨r1.acc.store, acc.runNewestId, acc.runOldestId, n0, u0⟩ := by
          rw [h2]; simp only [syncLoop, hfetch]; rw [if_pos hempty]
        have e2b : r2.exit = LoopExit.ended := by
          rw [h2]; simp only [syncLoop, hfetch]; rw [if_pos hempty]
        rw [e2a, e2b, e1b, e1a]
        exact ⟨rfl, rfl, rfl, rfl, rfl, rfl⟩
      · have hmem1 : ∀ b ∈ blocks,
            slugMember slug (blocks.foldl (processBlock images opts slug now1) acc).store
              b.id :=
          (foldl_processBlock_slugMember images opts slug now1 blocks acc).1
        obtain ⟨ht1, ht2⟩ := foldl_processBlock_trackers images opts slug now1 blocks acc
        by_cases hmore : (!hasMore) = true
        · -- both loops stop at this short page
          have e1a : r1.acc = blocks.foldl (processBlock images opts slug now1) acc := by
            rw [h1]; simp only [syncLoop, hfetch]; rw [if_neg hempty, if_pos hmore]
          have e1b : r1.exit = LoopExit.ended := by
            rw [h1]; simp only [syncLoop, hfetch]; rw [if_neg hempty, if_pos hmore]
          have hnoop := foldl_processBlock_noop images opts slug now2 blocks
            { store := r1.acc.store, runNewestId := acc.runNewestId,
              runOldestId := acc.runOldestId, newBlocks := n0, updatedBlocks := u0 }
            (by intro b hb; rw [e1a]; exact hmem1 b hb)
          have e2a : r2.acc = ⟨r1.acc.store, foldNewest acc.runNewestId blocks,
              foldOldest acc.runOldestId blocks, n0, u0⟩ := by
            rw [h2]; simp only [syncLoop, hfetch]; rw [if_neg hempty, if_pos hmore, hnoop]
          have e2b : r2.exit = LoopExit.ended := by
            rw [h2]; simp only [syncLoop, hfetch]; rw [if_neg hempty, if_pos hmore]
          rw [e2a, e2b, e1b]
          refine ⟨rfl, rfl, rfl, ?_, ?_, rfl⟩
          · rw [e1a, ht1]
          · rw [e1a, ht2]
        · have hbd2 : (opts.backfill && boundaryReached cs blocks) = false := by
            rw [hbf]; simp
          have hbd3 : (opts.backfill && boundaryReached cs2 blocks) = false := by
            rw [hbf]; simp
          have hr1unf : r1 = syncLoop remote images opts slug now1 fuel (page + 1) cs
              (blocks.foldl (processBlock images opts slug now1) acc)
              (pages ++ [page]) (processed ++ blocks) := by
            rw [h1]
            simp only [syncLoop, hfetch]
            rw [if_neg hempty, if_neg hmore, hbd2]
            rfl
          have hmemS : ∀ b ∈ blocks, slugMember slug r1.acc.store b.id := by
            intro b hb
            rw [hr1unf]
            exact syncLoop_slugMember_pres remote images opts slug now1 fuel (page + 1)
              cs _ (pages ++ [page]) (processed ++ blocks) b.id (hmem1 b hb)
          have hnoop := foldl_processBlock_noop images opts slug now2 blocks
            { store := r1.acc.store, runNewestId := acc.runNewestId,
              runOldestId := acc.runOldestId, newBlocks := n0, updatedBlocks := u0 }
            hmemS
          have hr2unf : r2 = syncLoop remote images opts slug now2 fuel (page + 1) cs2
              ⟨r1.acc.store,
                (blocks.foldl (processBlock images opts slug now1) acc).runNewestId,
                (blocks.foldl (processBlock images opts slug now1) acc).runOldestId,
                n0, u0⟩
              (pages2 ++ [page]) (processed2 ++ blocks) := by
            rw [h2]
            simp only [syncLoop, hfetch]
            rw [if_neg hempty, if_neg hmore, hbd3, hnoop, ht1, ht2]
            rfl
          have hstep := ih (page + 1) cs cs2
            (blocks.foldl (processBlock images opts slug now1) acc)
            (pages ++ [page]) (pages2 ++ [page]) (processed ++ blocks)
            (processed2 ++ blocks) n0 u0 r1 r2 hr1unf ?_
          · exact hstep
          · rw [hr2unf]

/-- C4: running a full (incremental-mode) sync pass twice over the same
unchanged remote collection is idempotent. After the second pass the block
store is identical to its state after the first pass — existing records
whose membership already contains the collection are never re-saved, so no
`exported_at` stamp changes even though the second pass runs at a
different time `now2` — the second pass reports zero new and zero updated
records, ends the same way as the first, and the channel's stored
`newest_id` / `oldest_id` watermarks are unchanged by the second pass. -/
theorem c4_sync_idempotent (remote : Nat → Except Nat (List ArenaBlock))
    (images : String → Nat → Option String) (channel : ArenaChannel)
    (store : BlockStore) (state : ExportState) (di : Bool) (now1 now2 fuel : Nat) :
    (exportChannel remote images channel
        (exportChannel remote images channel store state ⟨false, di⟩ now1 fuel).store
        (exportChannel remote images channel store state ⟨false, di⟩ now1 fuel).state
        ⟨false, di⟩ now2 fuel).store =
      (exportChannel remote images channel store state ⟨false, di⟩ now1 fuel).store ∧
    (exportChannel remote images channel
        (exportChannel remote images channel store state ⟨false, di⟩ now1 fuel).store
        (exportChannel remote images channel store state ⟨false, di⟩ now1 fuel).state
        ⟨false, di⟩ now2 fuel).newBlocks = 0 ∧
    (exportChannel remote images channel
        (exportChannel remote images channel store state ⟨false, di⟩ now1 fuel).store
        (exportChannel remote images channel store state ⟨false, di⟩ now1 fuel).state
        ⟨false, di⟩ now2 fuel).updatedBlocks = 0 ∧
    (exportChannel remote images channel
        (exportChannel remote images channel store state ⟨false, di⟩ now1 fuel).store
        (exportChannel remote images channel store state ⟨false, di⟩ now1 fuel).state
        ⟨false, di⟩ now2 fuel).exit =
      (exportChannel remote images channel store state ⟨false, di⟩ now1 fuel).exit ∧
    watermarksOf (exportChannel remote images channel
        (exportChannel remote images channel store state ⟨false, di⟩ now1 fuel).store
        (exportChannel remote images channel store state ⟨false, di⟩ now1 fuel).state
        ⟨false, di⟩ now2 fuel).state channel.slug =
      watermarksOf (exportChannel remote images channel store state ⟨false, di⟩
        now1 fuel).state channel.slug := by
  simp only [exportChannel, Bool.false_and]
  rw [if_neg Bool.false_ne_true, if_neg Bool.false_ne_true]
  set L1 := syncLoop remote images (⟨false, di⟩ : SyncOptions) channel.slug now1 fuel 1
      ((lookupChannel state channel.slug).getD (defaultChannelState channel now1))
      ⟨store, none, none, 0, 0⟩ [] [] with hL1
  have hcs1 := syncLoop_chState remote images (⟨false, di⟩ : SyncOptions) channel.slug now1
    fuel 1 ((lookupChannel state channel.slug).getD (defaultChannelState channel now1))
    ⟨store, none, none, 0, 0⟩ [] []
  rw [← hL1] at hcs1
  cases hexit1 : L1.exit with
  | ended =>
    rw [lookupChannel_setChannel state channel.slug (commitWatermarks L1.chState L1.acc
      now1), Option.getD_some]
    set L2 := syncLoop remote images (⟨false, di⟩ : SyncOptions) channel.slug now2 fuel 1
        (commitWatermarks L1.chState L1.acc now1)
        ⟨L1.acc.store, none, none, 0, 0⟩ [] [] with hL2
    have hcs2 := syncLoop_chState remote images (⟨false, di⟩ : SyncOptions) channel.slug
      now2 fuel 1 (commitWatermarks L1.chState L1.acc now1)
      ⟨L1.acc.store, none, none, 0, 0⟩ [] []
    rw [← hL2] at hcs2
    have hstep := syncLoop_lockstep remote images (⟨false, di⟩ : SyncOptions) channel.slug
      now1 now2 rfl fuel 1
      ((lookupChannel state channel.slug).getD (defaultChannelState channel now1))
      (commitWatermarks L1.chState L1.acc now1)
      ⟨store, none, none, 0, 0⟩ [] [] [] [] 0 0 L1 L2 hL1 hL2
    obtain ⟨hs1, hs2, hs3, hs4, hs5, hs6⟩ := hstep
    rw [hexit1] at hs6
    rw [hs6]
    refine ⟨hs1, hs2, hs3, rfl, ?_⟩
    rw [watermarksOf, watermarksOf, lookupChannel_setChannel, lookupChannel_setChannel]
    have hn : (commitWatermarks L2.chState L2.acc now2).newest_id =
        (commitWatermarks L1.chState L1.acc now1).newest_id := by
      have h2n : L2.chState.newest_id = (commitWatermarks L1.chState L1.acc now1).newest_id := by
        rcases hcs2 with h | h <;> rw [h]
      rw [commitWatermarks, commitWatermarks]
      show maxMerge L2.chState.newest_id L2.acc.runNewestId =
        maxMerge L1.chState.newest_id L1.acc.runNewestId
      rw [h2n, hs4]
      show maxMerge (maxMerge L1.chState.newest_id L1.acc.runNewestId) L1.acc.runNewestId = _
      exact maxMerge_absorb _ _
    have ho : (commitWatermarks L2.chState L2.acc now2).oldest_id =
        (commitWatermarks L1.chState L1.acc now1).oldest_id := by
      have h2o : L2.chState.oldest_id = (commitWatermarks L1.chState L1.acc now1).oldest_id := by
        rcases hcs2 with h | h <;> rw [h]
      rw [commitWatermarks, commitWatermarks]
      show minMerge L2.chState.oldest_id L2.acc.runOldestId =
        minMerge L1.chState.oldest_id L1.acc.runOldestId
      rw [h2o, hs5]
      show minMerge (minMerge L1.chState.oldest_id L1.acc.runOldestId) L1.acc.runOldestId = _
      exact minMerge_absorb _ _
    dsimp only
    rw [hn, ho]
  | errored s =>
    set L2 := syncLoop remote images (⟨false, di⟩ : SyncOptions) channel.slug now2 fuel 1
        ((lookupChannel state channel.slug).getD (defaultChannelState channel now2))
        ⟨L1.acc.store, none, none, 0, 0⟩ [] [] with hL2
    have hstep := syncLoop_lockstep remote images (⟨false, di⟩ : SyncOptions) channel.slug
      now1 now2 rfl fuel 1
      ((lookupChannel state channel.slug).getD (defaultChannelState channel now1))
      ((lookupChannel state channel.slug).getD (defaultChannelState channel now2))
      ⟨store, none, none, 0, 0⟩ [] [] [] [] 0 0 L1 L2 hL1 hL2
    obtain ⟨hs1, hs2, hs3, hs4, hs5, hs6⟩ := hstep
    rw [hexit1] at hs6
    rw [hs6]
    exact ⟨hs1, hs2, hs3, rfl, rfl⟩
  | fuelOut =>
    set L2 := syncLoop remote images (⟨false, di⟩ : SyncOptions) channel.slug now2 fuel 1
        ((lookupChannel state channel.slug).getD (defaultChannelState channel now2))
        ⟨L1.acc.store, none, none, 0, 0⟩ [] [] with hL2
    have hstep := syncLoop_lockstep remote images (⟨false, di⟩ : SyncOptions) channel.slug
      now1 now2 rfl fuel 1
      ((lookupChannel state channel.slug).getD (defaultChannelState channel now1))
      ((lookupChannel state channel.slug).getD (defaultChannelState channel now2))
      ⟨store, none, none, 0, 0⟩ [] [] [] [] 0 0 L1 L2 hL1 hL2
    obtain ⟨hs1, hs2, hs3, hs4, hs5, hs6⟩ := hstep
    rw [hexit1] at hs6
    rw [hs6]
    exact ⟨hs1, hs2, hs3, rfl, rfl⟩

-- ===========================================================================
-- C9: enrichment failure handling
-- ===========================================================================

/-- With unique ids, the point lookup of a stored block returns that block. -/
lemma loadBlock_of_mem_nodup (store : BlockStore) (b : ExportedBlock) (hb : b ∈ store)
    (hnd : (store.map (fun x => x.id)).Nodup) : loadBlock store b.id = some b := by
  induction store with
  | nil => cases hb
  | cons x xs ih =>
    have hnd0 : (x.id :: xs.map (fun y => y.id)).Nodup := by
      simpa only [List.map_cons] using hnd
    have hnd2 := List.nodup_cons.mp hnd0
    unfold loadBlock
    by_cases hx : x.id = b.id
    · rw [List.find?_cons_of_pos _ (by simp [hx])]
      rcases List.mem_cons.mp hb with rfl | hbx
      · rfl
      · exfalso
        have hmem : b.id ∈ xs.map (fun x => x.id) := List.mem_map.mpr ⟨b, hbx, rfl⟩
        exact hnd2.1 (hx ▸ hmem)
    · rw [List.find?_cons_of_neg _ (by simp [hx])]
      rcases List.mem_cons.mp hb with rfl | hbx
      · exact absurd rfl hx
      · exact ih hbx hnd2.2

/-- Mapping stored blocks to their ids and loading them back is the
identity (the id → load → filter pipeline of the enrichment main). -/
lemma filterMap_load_map_id (store : BlockStore) (l : List ExportedBlock)
    (h : ∀ b ∈ l, loadBlock store b.id = some b) :
    (l.map (fun b => b.id)).filterMap (loadBlock store) = l := by
  induction l with
  | nil => rfl
  | cons b rest ih =>
    simp only [List.map_cons, List.filterMap_cons, h b (by simp)]
    rw [ih (fun x hx => h x (by simp [hx]))]

/-- With unique ids, the candidate-selection of the enrichment main is a
plain double filter over the store. -/
lemma imageBlocksOf_eq (store : BlockStore) (target : Option String)
    (hnd : (store.map (fun x => x.id)).Nodup) :
    imageBlocksOf store target =
      (store.filter (candidateFilter target)).filter eligibleImageBlock := by
  have hload : ∀ (p : ExportedBlock → Bool), ∀ b ∈ store.filter p,
      loadBlock store b.id = some b := by
    intro p b hb
    exact loadBlock_of_mem_nodup store b (List.mem_of_mem_filter hb) hnd
  cases target with
  | some ch =>
    show (((store.filter (fun b => b.channels.contains ch)).map
        (fun b => b.id)).filterMap (loadBlock store)).filter eligibleImageBlock = _
    rw [filterMap_load_map_id store _ (hload _)]
    rfl
  | none =>
    show (((store.filter (fun b => b.cls == "Image" && b.image_url.isSome)).map
        (fun b => b.id)).filterMap (loadBlock store)).filter eligibleImageBlock = _
    rw [filterMap_load_map_id store _ (hload _)]
    rfl

/-- The enrichment loop preserves the id sequence of the store when every
processed block's id is already present. -/
lemma enrichLoop_ids (oracle : Nat → Except String ParsedPayload) (now : Nat) :
    ∀ (l : List ExportedBlock) (acc : EnrichAcc),
      (∀ b ∈ l, b.id ∈ acc.store.map (fun x => x.id)) →
      (enrichLoop oracle now l acc).store.map (fun x => x.id) =
        acc.store.map (fun x => x.id) := by
  intro l
  induction l with
  | nil => intro acc _; rfl
  | cons b rest ih =>
    intro acc h
    rw [enrichLoop]
    have hany : acc.store.any (fun x => x.id == b.id) = true := by
      obtain ⟨y, hy, hyid⟩ := List.mem_map.mp (h b (by simp))
      exact List.any_eq_true.mpr ⟨y, hy, by simp [hyid]⟩
    have hsave : (enrichStep oracle now acc b).store.map (fun x => x.id) =
        acc.store.map (fun x => x.id) :=
      saveBlock_ids acc.store _ hany
    rw [ih (enrichStep oracle now acc b) (fun x hx => by
      rw [hsave]; exact h x (by simp [hx]))]
    exact hsave

/-- Element-level effect of the enrichment loop: every processed block's
file now holds the analysis outcome for it (sentinel or real payload), no
other file changes, and both counters advance by one per processed block,
failures included. -/
lemma enrichLoop_effect (oracle : Nat → Except String ParsedPayload) (now : Nat) :
    ∀ (l : List ExportedBlock) (acc : EnrichAcc),
      (l.map (fun b => b.id)).Nodup →
      (∀ b ∈ l, loadBlock (enrichLoop oracle now l acc).store b.id =
        some { b with vision := some (analyzeImage (oracle b.id) now) }) ∧
      (∀ i, i ∉ l.map (fun b => b.id) →
        loadBlock (enrichLoop oracle now l acc).store i = loadBlock acc.store i) ∧
      (enrichLoop oracle now l acc).enrichment.total_enriched =
        acc.enrichment.total_enriched + l.length ∧
      (enrichLoop oracle now l acc).enriched = acc.enriched + l.length := by
  intro l
  induction l with
  | nil => intro acc _; exact ⟨by simp, fun i _ => rfl, rfl, rfl⟩
  | cons b rest ih =>
    intro acc hnd
    have hnd0 : (b.id :: rest.map (fun y => y.id)).Nodup := by
      simpa only [List.map_cons] using hnd
    have hnd2 := List.nodup_cons.mp hnd0
    rw [enrichLoop]
    obtain ⟨g1, g2, g3, g4⟩ := ih (enrichStep oracle now acc b) hnd2.2
    refine ⟨?_, ?_, ?_, ?_⟩
    · intro x hx
      rcases List.mem_cons.mp hx with rfl | hx
      · rw [g2 x.id hnd2.1]
        show loadBlock (saveBlock acc.store _) x.id = _
        rw [loadBlock_saveBlock]
        rw [if_pos rfl]
      · exact g1 x hx
    · intro i hi
      rw [g2 i (fun hh => hi (by simp [hh]))]
      show loadBlock (saveBlock acc.store _) i = _
      rw [loadBlock_saveBlock, if_neg (fun hh => hi (by simp [hh]))]
    · rw [g3]
      show acc.enrichment.total_enriched + 1 + rest.length = _
      simp [Nat.add_assoc, Nat.add_comm 1 rest.length]
    · rw [g4]
      show acc.enriched + 1 + rest.length = _
      simp [Nat.add_assoc, Nat.add_comm 1 rest.length]

/-- C9: behavior of a non-forced, non-dry enrichment pass, for every store
with unique record ids and every annotation oracle. (1) Every selected
record whose external annotation call fails gets the failure sentinel
written into its file, persisted immediately, and (2) every selected
record whose call succeeds gets the real payload — in particular the loop
continues past failures, since both hold for all selected records at once.
(3)/(4) The global enrichment counter and the pass's `enriched` count
advance by the number of selected records, failures included. (5)/(6) A
later non-forced pass selects nothing and changes neither the store nor
the enrichment state. (7)/(8) The sentinel is marked
(`"Analysis Failed"` title, `["error"]` tags) and differs from any
successfully-analyzed payload whose tag list is not `["error"]`. -/
theorem c9_enrichment_failure_handling (store : BlockStore) (enr0 : EnrichmentState)
    (oracle : Nat → Except String ParsedPayload) (target : Option String) (now now2 : Nat)
    (hnd : (store.map (fun x => x.id)).Nodup) :
    (∀ b ∈ blocksToProcessOf store target false, ∀ msg, oracle b.id = Except.error msg →
      loadBlock (enrichMain store enr0 oracle target false false now).store b.id =
        some { b with vision := some (sentinelEnrichment msg now) }) ∧
    (∀ b ∈ blocksToProcessOf store target false, ∀ p, oracle b.id = Except.ok p →
      loadBlock (enrichMain store enr0 oracle target false false now).store b.id =
        some { b with vision := some (successEnrichment p now) }) ∧
    (enrichMain store enr0 oracle target false false now).enrichment.total_enriched =
      enr0.total_enriched + (blocksToProcessOf store target false).length ∧
    (enrichMain store enr0 oracle target false false now).enriched =
      (blocksToProcessOf store target false).length ∧
    blocksToProcessOf (enrichMain store enr0 oracle target false false now).store target
      false = [] ∧
    enrichMain (enrichMain store enr0 oracle target false false now).store
      (enrichMain store enr0 oracle target false false now).enrichment oracle target
      false false now2 =
      ⟨(enrichMain store enr0 oracle target false false now).store,
       (enrichMain store enr0 oracle target false false now).enrichment, 0⟩ ∧
    (∀ msg n1, (sentinelEnrichment msg n1).suggested_title = "Analysis Failed" ∧
      (sentinelEnrichment msg n1).tags = ["error"]) ∧
    (∀ p msg n1 n2, p.tags.getD [] ≠ ["error"] →
      successEnrichment p n1 ≠ sentinelEnrichment msg n2) := by
  set btp := blocksToProcessOf store target false with hbtp
  have hbtp_eq : btp = ((store.filter (candidateFilter target)).filter
      eligibleImageBlock).filter (fun b => b.vision.isNone) := by
    rw [hbtp]
    show blocksToProcessOf store target false = _
    simp only [blocksToProcessOf]
    rw [if_neg Bool.false_ne_true, imageBlocksOf_eq store target hnd]
  have hmem_btp : ∀ b ∈ btp, b ∈ store := by
    intro b hb
    rw [hbtp_eq] at hb
    exact List.mem_of_mem_filter (List.mem_of_mem_filter (List.mem_of_mem_filter hb))
  have hsub : btp.Sublist store := by
    rw [hbtp_eq]
    exact ((List.filter_sublist _).trans (List.filter_sublist _)).trans
      (List.filter_sublist _)
  have hnd_btp : (btp.map (fun b => b.id)).Nodup :=
    (hsub.map (fun b => b.id)).nodup hnd
  obtain ⟨e1, e2, e3, e4⟩ := enrichLoop_effect oracle now btp ⟨store, enr0, 0⟩ hnd_btp
  have hr : enrichMain store enr0 oracle target false false now =
      ⟨(enrichLoop oracle now btp ⟨store, enr0, 0⟩).store,
       (enrichLoop oracle now btp ⟨store, enr0, 0⟩).enrichment,
       (enrichLoop oracle now btp ⟨store, enr0, 0⟩).enriched⟩ := by
    simp only [enrichMain]
    rw [if_neg Bool.false_ne_true]
  have hids : (enrichLoop oracle now btp ⟨store, enr0, 0⟩).store.map (fun x => x.id) =
      store.map (fun x => x.id) :=
    enrichLoop_ids oracle now btp ⟨store, enr0, 0⟩
      (fun b hb => List.mem_map.mpr ⟨b, hmem_btp b hb, rfl⟩)
  have hnd2 : ((enrichLoop oracle now btp ⟨store, enr0, 0⟩).store.map
      (fun x => x.id)).Nodup := by
    rw [hids]
    exact hnd
  have hbtp2 : blocksToProcessOf (enrichLoop oracle now btp ⟨store, enr0, 0⟩).store
      target false = [] := by
    simp only [blocksToProcessOf]
    rw [if_neg Bool.false_ne_true, imageBlocksOf_eq _ target hnd2]
    rw [List.filter_eq_nil_iff]
    intro x hx
    have hxr : x ∈ (enrichLoop oracle now btp ⟨store, enr0, 0⟩).store :=
      List.mem_of_mem_filter (List.mem_of_mem_filter hx)
    have hload_x : loadBlock (enrichLoop oracle now btp ⟨store, enr0, 0⟩).store x.id =
        some x :=
      loadBlock_of_mem_nodup _ x hxr hnd2
    by_cases hxin : x.id ∈ btp.map (fun b => b.id)
    · obtain ⟨b, hb, hbid⟩ := List.mem_map.mp hxin
      rw [← hbid] at hload_x
      have h1 := e1 b hb
      rw [hload_x] at h1
      have hx2 : x = { b with vision := some (analyzeImage (oracle b.id) now) } := by
        simpa using h1
      rw [hx2]
      simp
    · have h2x := e2 x.id hxin
      rw [hload_x] at h2x
      have hxs : x ∈ store := List.mem_of_find?_eq_some h2x.symm
      intro hisNone
      apply hxin
      refine List.mem_map.mpr ⟨x, ?_, rfl⟩
      rw [hbtp_eq]
      refine List.mem_filter.mpr ⟨List.mem_filter.mpr ⟨List.mem_filter.mpr ⟨hxs, ?_⟩, ?_⟩, ?_⟩
      · -- candidateFilter target x: from hx membership in (r.store.filter cand)
        exact (List.mem_filter.mp (List.mem_of_mem_filter hx)).2
      · exact (List.mem_filter.mp hx).2
      · exact hisNone
  refine ⟨?_, ?_, ?_, ?_, ?_, ?_, ?_, ?_⟩
  · intro b hb msg hmsg
    have h1 := e1 b hb
    rw [hmsg] at h1
    rw [hr]
    exact h1
  · intro b hb p hp
    have h1 := e1 b hb
    rw [hp] at h1
    rw [hr]
    exact h1
  · rw [hr]
    exact e3
  · rw [hr]
    simpa using e4
  · rw [hr]
    exact hbtp2
  · rw [hr]
    simp only [enrichMain]
    rw [if_neg Bool.false_ne_true, hbtp2]
    rfl
  · intro msg n1
    exact ⟨rfl, rfl⟩
  · intro p msg n1 n2 htags heq
    apply htags
    have : (successEnrichment p n1).tags = (sentinelEnrichment msg n2).tags := by rw [heq]
    simpa [successEnrichment, sentinelEnrichment] using this

/-- Witness for C9: two eligible records, annotation failing on id 1 —
record 1 carries the sentinel, the counter counts both records, and a
second non-forced pass selects nothing. -/
theorem c9_enrichment_failure_handling_witness :
    loadBlock (enrichMain c9Store c9Enr0 c9Oracle none false false 5).store 1 =
      some { c9Block 1 none with vision := some (sentinelEnrichment "boom" 5) } ∧
    (enrichMain c9Store c9Enr0 c9Oracle none false false 5).enrichment.total_enriched =
      c9Enr0.total_enriched + (blocksToProcessOf c9Store none false).length ∧
    blocksToProcessOf (enrichMain c9Store c9Enr0 c9Oracle none false false 5).store none
      false = [] := by
  have h := c9_enrichment_failure_handling c9Store c9Enr0 c9Oracle none 5 6 (by decide)
  exact ⟨h.1 (c9Block 1 none) (by decide) "boom" rfl, h.2.2.1, h.2.2.2.2.1⟩
